import Mathlib

/-!
Verification of the simpy-markdown library (src/main.py): a Python port of
simple-markdown.  The Python code drives everything through `re`; we embed a
small backtracking regular-expression engine with Python semantics
(anchored `re.match`, scanning `re.search`/`re.sub`/`re.finditer`, lazy and
greedy repetition, lookahead, backreferences, word boundaries, `$` with and
without MULTILINE) and transcribe every regex of the source into its AST.
Strings are modelled as `List Char`.
-/

namespace SimpyMd

/-- Strings are lists of characters throughout the embedding. -/
abbrev Str := List Char

/-- Coerce a Lean string literal into the model. -/
def str (s : String) : Str := s.data

/-- Python whitespace for the `\s` class and `str.strip()`:
space, tab, newline, carriage return, form feed, vertical tab. -/
def isPySpace (c : Char) : Bool :=
  c = ' ' || c = '\t' || c = '\n' || c = '\r' || c = '\x0c' || c = '\x0b'

/-- ASCII letter. -/
def isAsciiLetter (c : Char) : Bool :=
  ('a' ≤ c && c ≤ 'z') || ('A' ≤ c && c ≤ 'Z')

/-- Python `\d` (ASCII inputs). -/
def isPyDigit (c : Char) : Bool := '0' ≤ c && c ≤ '9'

/-- Python `\w` = word character (ASCII approximation of the unicode class;
all inputs in this development are ASCII). -/
def isPyWord (c : Char) : Bool := isAsciiLetter c || isPyDigit c || c = '_'

/-- Character of the string at an absolute position. -/
def charAt (s : Str) (pos : Nat) : Option Char := (s.drop pos).head?

/-! ### Regular expression ASTs -/

/-- Regex abstract syntax. `cls` holds the character predicate of a class,
`rep greedy lo hi` is `{lo,hi}` (with `hi = none` for unbounded), `grp i`
is capturing group number `i`, `look neg` is `(?=…)`/`(?!…)`, `bos`/`eol`
are `^`/`$` without MULTILINE, `eolM` is `$` with MULTILINE, `wordB` is
`\b` and `bref i` a backreference. -/
inductive RE where
  | eps : RE
  | cls (p : Char → Bool) : RE
  | cat (a b : RE) : RE
  | alt (a b : RE) : RE
  | rep (greedy : Bool) (lo : Nat) (hi : Option Nat) (a : RE) : RE
  | grp (i : Nat) (a : RE) : RE
  | look (neg : Bool) (a : RE) : RE
  | bos : RE
  | eol : RE
  | eolM : RE
  | wordB : RE
  | bref (i : Nat) : RE

namespace RE

/-- Literal character. -/
def chr (c : Char) : RE := .cls (fun x => x = c)

/-- Literal string. -/
def lit (s : String) : RE := s.data.foldr (fun c r => .cat (chr c) r) .eps

/-- Sequence of regexes. -/
def seq (l : List RE) : RE := l.foldr .cat .eps

/-- Alternation over a list, tried left to right. -/
def alts : List RE → RE
  | [] => .eps
  | [r] => r
  | r :: rest => .alt r (alts rest)

/-- Character class from an explicit character list. -/
def anyOf (s : String) : RE := .cls (fun c => s.data.contains c)

/-- Negated character class. -/
def noneOf (s : String) : RE := .cls (fun c => !s.data.contains c)

/-- Greedy star / plus / optional. -/
def star (r : RE) : RE := .rep true 0 none r
def plus (r : RE) : RE := .rep true 1 none r
def opt (r : RE) : RE := .rep true 0 (some 1) r

/-- Lazy star / plus. -/
def starL (r : RE) : RE := .rep false 0 none r
def plusL (r : RE) : RE := .rep false 1 none r

/-- Any character at all (`[\s\S]`). -/
def anyCh : RE := .cls (fun _ => true)

/-- Dot without DOTALL: anything but a newline. -/
def dot : RE := .cls (fun c => c ≠ '\n')

end RE

/-! ### The backtracking matcher

A continuation-passing backtracking engine with fuel.  The fuel only bounds
recursion depth; all concrete runs in this file use ample fuel. -/

/-- Group capture spans, most recent first: (group index, start, end). -/
abbrev Groups := List (Nat × Nat × Nat)

/-- Latest recorded span of a group. -/
def grpLookup (g : Groups) (i : Nat) : Option (Nat × Nat) :=
  match g with
  | [] => none
  | (j, sp) :: rest => if j = i then some sp else grpLookup rest i

/-- Word-boundary test at a position (Python `\b`). -/
def atWordBoundary (s : Str) (pos : Nat) : Bool :=
  let before := match pos with
    | 0 => false
    | p + 1 => match charAt s p with | some c => isPyWord c | none => false
  let after := match charAt s pos with | some c => isPyWord c | none => false
  before != after

abbrev MCont := Nat → Groups → Option (Nat × Groups)

/-- Run regex `r` at position `pos` of `s` with groups `g` and continuation
`k`; backtracking is by trying alternatives when the continuation fails.
Repetition of a body that matched zero characters stops iterating, as in
Python's engine. -/
def mrun (s : Str) : Nat → RE → Nat → Groups → MCont → Option (Nat × Groups)
  | 0, _, _, _, _ => none
  | fuel + 1, r, pos, g, k =>
    match r with
    | .eps => k pos g
    | .cls p =>
      match charAt s pos with
      | some c => if p c then k (pos + 1) g else none
      | none => none
    | .cat a b => mrun s fuel a pos g (fun p1 g1 => mrun s fuel b p1 g1 k)
    | .alt a b =>
      match mrun s fuel a pos g k with
      | some res => some res
      | none => mrun s fuel b pos g k
    | .rep greedy lo hi a =>
      match hi with
      | some 0 => if lo = 0 then k pos g else none
      | _ =>
        let hi' := hi.map (· - 1)
        match lo with
        | l + 1 =>
          mrun s fuel a pos g (fun p1 g1 => mrun s fuel (.rep greedy l hi' a) p1 g1 k)
        | 0 =>
          if greedy then
            match mrun s fuel a pos g (fun p1 g1 =>
                if pos < p1 then mrun s fuel (.rep greedy 0 hi' a) p1 g1 k else none) with
            | some res => some res
            | none => k pos g
          else
            match k pos g with
            | some res => some res
            | none =>
              mrun s fuel a pos g (fun p1 g1 =>
                if pos < p1 then mrun s fuel (.rep greedy 0 hi' a) p1 g1 k else none)
    | .grp i a => mrun s fuel a pos g (fun p1 g1 => k p1 ((i, pos, p1) :: g1))
    | .look neg a =>
      match mrun s fuel a pos g (fun p1 g1 => some (p1, g1)) with
      | some (_, g1) => if neg then none else k pos g1
      | none => if neg then k pos g else none
    | .bos => if pos = 0 then k pos g else none
    | .eol =>
      if pos = s.length || (pos + 1 = s.length && charAt s pos = some '\n') then k pos g
      else none
    | .eolM => if pos = s.length || charAt s pos = some '\n' then k pos g else none
    | .wordB => if atWordBoundary s pos then k pos g else none
    | .bref i =>
      match grpLookup g i with
      | some (st, en) =>
        let needle := (s.drop st).take (en - st)
        if needle.isPrefixOf (s.drop pos) then k (pos + needle.length) g else none
      | none => none

/-- A Python match object: the full match plus the numbered groups
(`none` = group did not participate). -/
structure Capture where
  full : Str
  groups : List (Option Str)
deriving Repr, DecidableEq

/-- Indexing `capture[i]`: index 0 is the full match, `i ≥ 1` the groups. -/
def Capture.grp (c : Capture) (i : Nat) : Option Str :=
  match i with
  | 0 => some c.full
  | j + 1 => (c.groups.get? j).getD none

/-- Group `i` of a capture, defaulting to the empty string (Python code that
indexes a group it knows matched). -/
def Capture.grpD (c : Capture) (i : Nat) : Str := (c.grp i).getD []

/-- Python truthiness of an optional string group. -/
def pyTruthy : Option Str → Bool
  | none => false
  | some s => !s.isEmpty

/-- Python `a or b` over optional string groups. -/
def pyOr (a b : Option Str) : Option Str := if pyTruthy a then a else b

/-- Fuel given to every concrete regex run in this file. -/
def reFuel : Nat := 1500

/-- Build the capture for a successful engine run that ended at `stop`
having started at `start`. -/
def mkCapture (s : Str) (nGroups start stop : Nat) (g : Groups) : Capture :=
  { full := (s.drop start).take (stop - start)
    groups := (List.range nGroups).map (fun i =>
      match grpLookup g (i + 1) with
      | some (a, b) => some ((s.drop a).take (b - a))
      | none => none) }

/-- Python `pattern.match(s)`: anchored at position 0. `n` is the number of
capturing groups of the pattern. -/
def reMatch (r : RE) (n : Nat) (s : Str) : Option Capture :=
  match mrun s reFuel r 0 [] (fun p g => some (p, g)) with
  | some (p, g) => some (mkCapture s n 0 p g)
  | none => none

/-- First match at or after `start` (Python scanning semantics
for `search`/`sub`/`finditer`); returns the match position and capture. -/
def reSearchFrom (r : RE) (n : Nat) (s : Str) : Nat → Nat → Option (Nat × Capture)
  | _, 0 => none
  | start, countdown + 1 =>
    if start > s.length then none
    else
      match mrun s reFuel r start [] (fun p g => some (p, g)) with
      | some (p, g) => some (start, mkCapture s n start p g)
      | none => reSearchFrom r n s (start + 1) countdown

/-- Python `pattern.sub(repl, s, count)` with a replacement function;
`count = 0` means replace all.  After an empty match the scan advances one
character, copying it through. -/
def reSubAux (r : RE) (n : Nat) (repl : Capture → Str) (s : Str) :
    Nat → Nat → Nat → Str
  | _, _, 0 => s
  | start, count, countdown + 1 =>
    match reSearchFrom r n s start (s.length + 1 - start) with
    | none => s.drop start
    | some (p, cap) =>
      let pre := (s.drop start).take (p - start)
      if cap.full.isEmpty then
        match charAt s p with
        | some c =>
          if count = 1 then pre ++ repl cap ++ s.drop p
          else pre ++ repl cap ++ c :: reSubAux r n repl s (p + 1) (count - 1) countdown
        | none => pre ++ repl cap
      else
        if count = 1 then pre ++ repl cap ++ s.drop (p + cap.full.length)
        else pre ++ repl cap ++ reSubAux r n repl s (p + cap.full.length) (count - 1) countdown

/-- Python `pattern.sub(repl, s, count)`; `count = 0` replaces every match. -/
def reSub (r : RE) (n : Nat) (repl : Capture → Str) (s : Str) (count : Nat) : Str :=
  reSubAux r n repl s 0 (if count = 0 then s.length + 1 else count) (s.length + 1)

/-- Constant replacement. -/
def reSubC (r : RE) (n : Nat) (repl : Str) (s : Str) (count : Nat) : Str :=
  reSub r n (fun _ => repl) s count

/-- Python `pattern.finditer(s)`: non-overlapping matches left to right. -/
def reFindIterAux (r : RE) (n : Nat) (s : Str) : Nat → Nat → List Capture
  | _, 0 => []
  | start, countdown + 1 =>
    match reSearchFrom r n s start (s.length + 1 - start) with
    | none => []
    | some (p, cap) =>
      if cap.full.isEmpty then
        cap :: reFindIterAux r n s (p + 1) countdown
      else
        cap :: reFindIterAux r n s (p + cap.full.length) countdown

def reFindIter (r : RE) (n : Nat) (s : Str) : List Capture :=
  reFindIterAux r n s 0 (s.length + 1)

/-! ### The regexes of src/main.py, transcribed -/

/-- Backtick, written by code point to keep the source free of tricky
character literals. -/
def bq : Char := Char.ofNat 96
/-- Single quote. -/
def sq : Char := Char.ofNat 39
/-- Double quote. -/
def dq : Char := Char.ofNat 34
/-- Backslash. -/
def bs : Char := Char.ofNat 92

namespace Rx
open RE

/-- The class `[\s\S]` wrapped after a backslash: an escaped character. -/
def escAny : RE := .cat (chr bs) anyCh

/-- The `\s` class. -/
def sp : RE := .cls isPySpace
/-- The `\S` class. -/
def nsp : RE := .cls (fun c => !isPySpace c)
/-- The `[^\n]` class. -/
def nonNl : RE := .cls (fun c => c ≠ '\n')
/-- A literal space, ` *` and ` +`. -/
def spc : RE := chr ' '
def spcs : RE := star (chr ' ')
def spcs1 : RE := plus (chr ' ')
def nl : RE := chr '\n'

/-- CR_NEWLINE_R = `\r\n?` -/
def crNewline : RE := .cat (chr '\r') (opt (chr '\n'))
/-- TAB_R = `\t` -/
def tabR : RE := chr '\t'
/-- FORMFEED_R = `\f` -/
def formfeed : RE := chr '\x0c'

/-- BLOCK_END_R = `\n{2,}$` -/
def blockEnd : RE := .cat (.rep true 2 none nl) .eol

/-- LIST_BULLET = `(?:[*+-]|\d+\.)` -/
def listBullet : RE := .alt (anyOf "*+-") (.cat (plus (.cls isPyDigit)) (chr '.'))

/-- LIST_ITEM_PREFIX = `( *)((?:[*+-]|\d+\.)) +`; LIST_ITEM_PREFIX_R anchors it. -/
def listItemPrefixBody : RE := seq [.grp 1 spcs, .grp 2 listBullet, spcs1]
def listItemPrefixR : RE := .cat .bos listItemPrefixBody

/-- LIST_ITEM_R (MULTILINE) =
`( *)((?:[*+-]|\d+\.)) +[^\n]*(?:\n(?!\1(?:[*+-]|\d+\.) )[^\n]*)*(\n|$)` -/
def listItemR : RE :=
  seq [listItemPrefixBody, star nonNl,
    star (seq [nl, .look true (seq [.bref 1, listBullet, spc]), star nonNl]),
    .grp 3 (.alt nl .eolM)]

/-- INLINE_CODE_ESCAPE_BACKTICKS_R = `^ (?= *X)|(X *) $` where X is a backtick. -/
def inlineCodeEscape : RE :=
  .alt (seq [.bos, spc, .look false (.cat spcs (chr bq))])
    (seq [.grp 1 (.cat (chr bq) spcs), spc, .eol])

/-- LIST_ITEM_END_R = ` *\n+$` -/
def listItemEnd : RE := seq [spcs, plus nl, .eol]

/-- LIST_R = `^( *)((?:[*+-]|\d+\.)) [\s\S]+?(?:\n{2,}(?! )(?!\1(?:[*+-]|\d+\.) )\n*|\s*\n*$)` -/
def listR : RE :=
  seq [.bos, .grp 1 spcs, .grp 2 listBullet, spc, plusL anyCh,
    .alt
      (seq [.rep true 2 none nl, .look true spc,
        .look true (seq [.bref 1, listBullet, spc]), star nl])
      (seq [star sp, star nl, .eol])]

/-- LIST_LOOKBEHIND_R = `(?:^|\n)( *)$` -/
def listLookbehind : RE := seq [.alt .bos nl, .grp 1 spcs, .eol]

/-- TABLE_ROW_SEPARATOR_TRIM = `^ *\| *| *\| *$` -/
def tableRowSeparatorTrim : RE :=
  .alt (seq [.bos, spcs, chr '|', spcs]) (seq [spcs, chr '|', spcs, .eol])

/-- TABLE_CELL_END_TRIM = ` *$` -/
def tableCellEndTrim : RE := .cat spcs .eol

/-- TABLE_RIGHT_ALIGN = `^ *-+: *$` -/
def tableRightAlign : RE := seq [.bos, spcs, plus (chr '-'), chr ':', spcs, .eol]
/-- TABLE_CENTER_ALIGN = `^ *:-+: *$` -/
def tableCenterAlign : RE := seq [.bos, spcs, chr ':', plus (chr '-'), chr ':', spcs, .eol]
/-- TABLE_LEFT_ALIGN = `^ *:-+ *$` -/
def tableLeftAlign : RE := seq [.bos, spcs, chr ':', plus (chr '-'), spcs, .eol]

/-- TABLE_REGEX = `^ *(\|.+)\n *\|( *[-:]+[-| :]*)\n((?: *\|.*(?:\n|$))*)\n*` -/
def tableRegex : RE :=
  seq [.bos, spcs, .grp 1 (.cat (chr '|') (plus dot)), nl, spcs, chr '|',
    .grp 2 (seq [spcs, plus (anyOf "-:"), star (anyOf "-| :")]), nl,
    .grp 3 (star (seq [spcs, chr '|', star dot, .alt nl .eol])), star nl]

/-- NPTABLE_REGEX = `^ *(\S.*\|.*)\n *([-:]+ *\|[-| :]*)\n((?:.*\|.*(?:\n|$))*)\n*` -/
def nptableRegex : RE :=
  seq [.bos, spcs, .grp 1 (seq [nsp, star dot, chr '|', star dot]), nl, spcs,
    .grp 2 (seq [plus (anyOf "-:"), spcs, chr '|', star (anyOf "-| :")]), nl,
    .grp 3 (star (seq [star dot, chr '|', star dot, .alt nl .eol])), star nl]

/-- LINK_INSIDE = `(?:\[[^\]]*\]|[^\[\]]|\](?=[^\[]*\]))*` -/
def linkInside : RE :=
  star (alts [seq [chr '[', star (.cls (fun c => c ≠ ']')), chr ']'],
    .cls (fun c => c ≠ '[' && c ≠ ']'),
    .cat (chr ']') (.look false (.cat (star (.cls (fun c => c ≠ '['))) (chr ']')))])

/-- LINK_HREF_AND_TITLE =
`\s*<?((?:\([^)]*\)|[^\s\\]|\\.)*?)>?(?:\s+[QUOTES]([\s\S]*?)[QUOTES])?\s*`
(QUOTES is the class of single and double quote). -/
def quoteCls : RE := .cls (fun c => c = sq || c = dq)

def linkHrefAndTitle : RE :=
  seq [star sp, opt (chr '<'),
    .grp 2 (starL (alts [seq [chr '(', star (.cls (fun c => c ≠ ')')), chr ')'],
      .cls (fun c => !isPySpace c && c ≠ bs), .cat (chr bs) dot])),
    opt (chr '>'),
    opt (seq [plus sp, quoteCls, .grp 3 (starL anyCh), quoteCls]),
    star sp]

/-- AUTOLINK_MAILTO_CHECK_R = `mailto:` with IGNORECASE. -/
def mailtoCheck : RE :=
  seq (("mailto:".data).map (fun c => .cls (fun x => x.toLower = c.toLower)))

/-- UNESCAPE_URL_R = `\\([^0-9A-Za-z\s])` -/
def unescapeUrlR : RE :=
  .cat (chr bs) (.grp 1 (.cls (fun c => !(isPyDigit c || isAsciiLetter c || isPySpace c))))

/-- Heading: `^ *(#{1,6})([^\n]+?)#* *(?:\n *)+\n` -/
def heading : RE :=
  seq [.bos, spcs, .grp 1 (.rep true 1 (some 6) (chr '#')), .grp 2 (plusL nonNl),
    star (chr '#'), spcs, plus (.cat nl spcs), nl]

/-- LHeading: `^([^\n]+)\n *(=|-){3,} *(?:\n *)+\n` -/
def lheading : RE :=
  seq [.bos, .grp 1 (plus nonNl), nl, spcs,
    .rep true 3 none (.grp 2 (.alt (chr '=') (chr '-'))), spcs, plus (.cat nl spcs), nl]

/-- HR: `^( *[-*_]){3,} *(?:\n *)+\n` -/
def hr : RE :=
  seq [.bos, .rep true 3 none (.grp 1 (.cat spcs (anyOf "-*_"))), spcs,
    plus (.cat nl spcs), nl]

/-- CodeBlock: `^(?:    [^\n]+\n*)+(?:\n *)+\n` -/
def codeBlock : RE :=
  seq [.bos, plus (seq [lit "    ", plus nonNl, star nl]), plus (.cat nl spcs), nl]

/-- Fence: `^ *(T{3,}|~{3,}) *(?:(\S+) *)?\n([\s\S]+?)\n?\1 *(?:\n *)+\n`
(T is a backtick). -/
def fence : RE :=
  seq [.bos, spcs, .grp 1 (.alt (.rep true 3 none (chr bq)) (.rep true 3 none (chr '~'))),
    spcs, opt (.cat (.grp 2 (plus nsp)) spcs), nl, .grp 3 (plusL anyCh), opt nl,
    .bref 1, spcs, plus (.cat nl spcs), nl]

/-- BlockQuote: `^( *>[^\n]+(\n[^\n]+)*\n*)+\n{2,}` -/
def blockQuote : RE :=
  seq [.bos,
    plus (.grp 1 (seq [spcs, chr '>', plus nonNl,
      star (.grp 2 (.cat nl (plus nonNl))), star nl])),
    .rep true 2 none nl]

/-- Def: `^ *\[([^\]]+)\]: *<?([^\s>]*)>?(?: +[Q(]([^\n]+)[Q)])? *\n(?: *\n)*`
(Q is the double quote). -/
def defR : RE :=
  seq [.bos, spcs, chr '[', .grp 1 (plus (.cls (fun c => c ≠ ']'))), chr ']', chr ':',
    spcs, opt (chr '<'), .grp 2 (star (.cls (fun c => !isPySpace c && c ≠ '>'))),
    opt (chr '>'),
    opt (seq [spcs1, .cls (fun c => c = dq || c = '('),
      .grp 3 (plus nonNl), .cls (fun c => c = dq || c = ')')]),
    spcs, nl, star (.cat spcs nl)]

/-- NewLine: `^(?:\n *)*\n` -/
def newline : RE := seq [.bos, star (.cat nl spcs), nl]

/-- Paragraph: `^((?:[^\n]|\n(?! *\n))+)(?:\n *)+\n` -/
def paragraph : RE :=
  seq [.bos,
    .grp 1 (plus (.alt nonNl (.cat nl (.look true (.cat spcs nl))))),
    plus (.cat nl spcs), nl]

/-- Escape: `^\\([^0-9A-Za-z\s])` -/
def escape : RE :=
  seq [.bos, chr bs, .grp 1 (.cls (fun c => !(isPyDigit c || isAsciiLetter c || isPySpace c)))]

/-- TableSeparator: `^ *\| *` -/
def tableSeparator : RE := seq [.bos, spcs, chr '|', spcs]

/-- AutoLink: `^<([^: >]+:\/[^ >]+)>` -/
def autolink : RE :=
  seq [.bos, chr '<',
    .grp 1 (seq [plus (.cls (fun c => c ≠ ':' && c ≠ ' ' && c ≠ '>')), chr ':', chr '/',
      plus (.cls (fun c => c ≠ ' ' && c ≠ '>'))]),
    chr '>']

/-- MailTo: `^<([^ >]+@[^ >]+)>` -/
def mailto : RE :=
  seq [.bos, chr '<',
    .grp 1 (seq [plus (.cls (fun c => c ≠ ' ' && c ≠ '>')), chr '@',
      plus (.cls (fun c => c ≠ ' ' && c ≠ '>'))]),
    chr '>']

/-- URL: `^(https?:\/\/[^\s<]+[^<.,:;Q')\]\s])` (Q the double quote). -/
def urlStop (c : Char) : Bool :=
  c = '<' || c = '.' || c = ',' || c = ':' || c = ';' || c = dq || c = sq ||
  c = ')' || c = ']' || isPySpace c

def url : RE :=
  seq [.bos, .grp 1 (seq [lit "http", opt (chr 's'), lit "://",
    plus (.cls (fun c => !isPySpace c && c ≠ '<')), .cls (fun c => !urlStop c)])]

/-- Link: `^\[(LINK_INSIDE)\]\(LINK_HREF_AND_TITLE\)` (groups 1; 2–3 inside). -/
def link : RE :=
  seq [.bos, chr '[', .grp 1 linkInside, chr ']', chr '(', linkHrefAndTitle, chr ')']

/-- Image: `^!\[(LINK_INSIDE)\]\(LINK_HREF_AND_TITLE\)` -/
def image : RE :=
  seq [.bos, chr '!', chr '[', .grp 1 linkInside, chr ']', chr '(', linkHrefAndTitle, chr ')']

/-- RefLink: `^\[(LINK_INSIDE)\]\s*\[([^\]]*)\]` -/
def reflink : RE :=
  seq [.bos, chr '[', .grp 1 linkInside, chr ']', star sp, chr '[',
    .grp 2 (star (.cls (fun c => c ≠ ']'))), chr ']']

/-- RefImage: `^!\[(LINK_INSIDE)\]\s*\[([^\]]*)\]` -/
def refimage : RE :=
  seq [.bos, chr '!', chr '[', .grp 1 linkInside, chr ']', star sp, chr '[',
    .grp 2 (star (.cls (fun c => c ≠ ']'))), chr ']']

/-- Em:
`^\b_((?:__|\\[\s\S]|[^\\_])+?)_\b|^\*(?=\S)((?:\*\*|\\[\s\S]|\s+(?:\\[\s\S]|[^\s\*\\]|\*\*)|[^\s\*\\])+?)\*(?!\*)` -/
def em : RE :=
  .alt
    (seq [.bos, .wordB, chr '_',
      .grp 1 (plusL (alts [lit "__", escAny, .cls (fun c => c ≠ bs && c ≠ '_')])),
      chr '_', .wordB])
    (seq [.bos, chr '*', .look false nsp,
      .grp 2 (plusL (alts [lit "**", escAny,
        .cat (plus sp) (alts [escAny, .cls (fun c => !isPySpace c && c ≠ '*' && c ≠ bs),
          lit "**"]),
        .cls (fun c => !isPySpace c && c ≠ '*' && c ≠ bs)])),
      chr '*', .look true (chr '*')])

/-- Strong: `^\*\*((?:\\[\s\S]|[^\\])+?)\*\*(?!\*)` -/
def strong : RE :=
  seq [.bos, lit "**", .grp 1 (plusL (.alt escAny (.cls (fun c => c ≠ bs)))),
    lit "**", .look true (chr '*')]

/-- U: `^__((?:\\[\s\S]|[^\\])+?)__(?!_)` -/
def uR : RE :=
  seq [.bos, lit "__", .grp 1 (plusL (.alt escAny (.cls (fun c => c ≠ bs)))),
    lit "__", .look true (chr '_')]

/-- Del: `^~~(?=\S)((?:\\[\s\S]|~(?!~)|[^\s~]|\s(?!~~))+?)~~` -/
def delR : RE :=
  seq [.bos, lit "~~", .look false nsp,
    .grp 1 (plusL (alts [escAny, .cat (chr '~') (.look true (chr '~')),
      .cls (fun c => !isPySpace c && c ≠ '~'), .cat sp (.look true (lit "~~"))])),
    lit "~~"]

/-- InlineCode: `^(T+)([\s\S]*?[^T])\1(?!T)` (T the backtick). -/
def inlineCode : RE :=
  seq [.bos, .grp 1 (plus (chr bq)), .grp 2 (.cat (starL anyCh) (.cls (fun c => c ≠ bq))),
    .bref 1, .look true (chr bq)]

/-- Br: `^ {2,}\n` -/
def br : RE := seq [.bos, .rep true 2 none spc, nl]

/-- Stop class of the text rule: `[^0-9A-Za-z\sÀ-￿]`. -/
def isTextStop (c : Char) : Bool :=
  !(isPyDigit c || isAsciiLetter c || isPySpace c || c.val ≥ 0xc0)

/-- Text: `^[\s\S]+?(?=[^0-9A-Za-z\sÀ-￿]|\n\n| {2,}\n|\w+:\S|$)` -/
def text : RE :=
  seq [.bos, plusL anyCh,
    .look false (alts [.cls isTextStop, lit "\n\n",
      .cat (.rep true 2 none spc) nl,
      seq [plus (.cls isPyWord), chr ':', nsp], .eol])]

/-- The whitespace-run regex `\s+` used to normalize reference names, and the
sub patterns of CodeBlock.parse and BlockQuote.parse. -/
def wsRun : RE := plus sp
def codeBlockIndent : RE := .cat .bos (lit "    ")
def trailingNls : RE := .cat (plus nl) .eol
def blockQuoteStrip : RE := seq [.bos, spcs, chr '>', opt spc]
/-- The `[^\d]+?` regex of List.parse's bullet-digit extraction. -/
def nonDigits : RE := plusL (.cls (fun c => !isPyDigit c))
end Rx

/-! ### Python string helpers -/

/-- Python `str.strip()`. -/
def stripWs (s : Str) : Str :=
  ((s.dropWhile isPySpace).reverse.dropWhile isPySpace).reverse

/-- Python `str.split(sep)` for a single-character separator. -/
def splitOn (sep : Char) (s : Str) : List Str := List.splitOn sep s

/-- Python `str.lower()` (ASCII). -/
def lowerStr (s : Str) : Str := s.map Char.toLower

/-- Python `needle in hay` substring test. -/
def containsSub (needle : Str) : Str → Bool
  | [] => needle.isEmpty
  | c :: rest => needle.isPrefixOf (c :: rest) || containsSub needle rest

/-- Python `int(...)` on a digit string. -/
def digitsToNat (s : Str) : Nat := s.foldl (fun a c => a * 10 + (c.toNat - 48)) 0

/-- Reference-name normalization of parse_ref and Def.parse:
`re.sub(r'\s+', ' ', name).lower()`. -/
def normalizeRef (s : Str) : Str := lowerStr (reSubC Rx.wsRun 0 (str " ") s 0)

/-- The helper `unescape_url`: `UNESCAPE_URL_R.sub(lambda m: m.group(1), raw)`. -/
def unescapeUrl (s : Str) : Str := reSub Rx.unescapeUrlR 1 (fun c => c.grpD 1) s 0

/-! ### preprocess -/

/-- The substitution `CR_NEWLINE_R.sub('    ', source)`: both a CRLF pair and a lone CR
become four spaces. -/
def crSub : Str → Str
  | [] => []
  | '\r' :: '\n' :: rest => ' ' :: ' ' :: ' ' :: ' ' :: crSub rest
  | '\r' :: rest => ' ' :: ' ' :: ' ' :: ' ' :: crSub rest
  | c :: rest => c :: crSub rest

/-- The substitution `FORMFEED_R.sub('', x)`. -/
def ffSub (s : Str) : Str := s.filter (fun c => c ≠ '\x0c')

/-- The substitution `TAB_R.sub('\n', x)` (the documented quirk: tabs become newlines). -/
def tabSub (s : Str) : Str := s.map (fun c => if c = '\t' then '\n' else c)

/-- The function `preprocess`. -/
def preprocess (s : Str) : Str := tabSub (ffSub (crSub s))

/-! ### Nodes and parse state -/

/-- AST nodes: one constructor per dict shape built by the rules' `parse`
methods.  `refLink`/`refImage` are the nodes built by parse_ref: in Python
these dicts stay aliased in `state['_refs']` and their `target`/`title`
entries are mutated later by Def.parse; here they carry an identifier into
the heap `MDState.store` that models that shared mutable cell. -/
inductive Node where
  | text (content : Str)
  | paragraph (content : List Node)
  | heading (level : Nat) (content : List Node)
  | hr
  | codeBlock (lang : Option Str) (content : Str)
  | blockQuote (content : List Node)
  | list (ordered : Bool) (start : Option Nat) (items : List (List Node))
  | defNode (name : Str) (target : Str) (title : Option Str)
  | table (header : List (List Node)) (align : List (Option String))
      (cells : List (List (List Node)))
  | newline
  | tableSep
  | link (content : List Node) (target : Str) (title : Option Str)
  | refLink (id : Nat) (content : List Node)
  | image (alt : Str) (target : Str) (title : Option Str)
  | refImage (id : Nat) (alt : Str)
  | em (content : List Node)
  | strong (content : List Node)
  | underline (content : List Node)
  | strikethrough (content : List Node)
  | inlineCode (content : Str)
  | br

/-- The `type` entry of the node dict (either set by `parse` itself or
filled in from the rule name by nested_parse). -/
def Node.typeStr : Node → String
  | .text _ => "text"
  | .paragraph _ => "paragraph"
  | .heading _ _ => "heading"
  | .hr => "hr"
  | .codeBlock _ _ => "codeBlock"
  | .blockQuote _ => "blockQuote"
  | .list _ _ _ => "list"
  | .defNode _ _ _ => "def"
  | .table _ _ _ => "table"
  | .newline => "newline"
  | .tableSep => "table_separator"
  | .link _ _ _ => "link"
  | .refLink _ _ => "link"
  | .image _ _ _ => "image"
  | .refImage _ _ => "image"
  | .em _ => "em"
  | .strong _ => "strong"
  | .underline _ => "u"
  | .strikethrough _ => "del"
  | .inlineCode _ => "inlineCode"
  | .br => "br"

/-- The parse `state` dict.  Absent keys and `False`/`None` values collapse
to the same falsy value in the Python code, so the flags are booleans.
`defs` is `_defs`, `refs` is `_refs` (holding node identifiers), and
`store`/`nextId` model the mutable ref-node dicts shared between the AST
and `_refs`. -/
structure MDState where
  inline : Bool := false
  listFlag : Bool := false
  inTable : Bool := false
  prevCapture : Option Capture := none
  defs : List (Str × Str × Option Str) := []
  refs : List (Str × List Nat) := []
  store : List (Nat × Option Str × Option Str) := []
  nextId : Nat := 0

/-- Association-list lookup keyed by strings (dict `.get`). -/
def alistGet {α : Type} (l : List (Str × α)) (k : Str) : Option α :=
  match l.find? (fun p => p.1 = k) with
  | some p => some p.2
  | none => none

/-- Dict assignment: replace the entry of the key if present, else append
(dicts preserve insertion order). -/
def alistSet {α : Type} : List (Str × α) → Str → α → List (Str × α)
  | [], k, v => [(k, v)]
  | p :: rest, k, v => if p.1 = k then (k, v) :: rest else p :: alistSet rest k v

/-- Heap read for a ref node's (target, title). -/
def storeGet (l : List (Nat × Option Str × Option Str)) (i : Nat) :
    Option (Option Str × Option Str) :=
  match l.find? (fun p => p.1 = i) with
  | some p => some p.2
  | none => none

/-- Heap write: replace the cell if present, else append. -/
def storeSet : List (Nat × Option Str × Option Str) → Nat →
    (Option Str × Option Str) → List (Nat × Option Str × Option Str)
  | [], i, v => [(i, v)]
  | p :: rest, i, v => if p.1 = i then (i, v) :: rest else p :: storeSet rest i v

/-! ### The default rule table -/

/-- Names of the default rules. -/
inductive RuleId where
  | arrayRule | heading | nptable | lheading | hr | codeBlock | fence | blockQuote
  | listRule | defRule | table | newline | paragraph | escape | tableSeparator
  | autolink | mailto | url | link | image | reflink | refimage
  | em | strong | u | del | inlineCode | br | text
deriving DecidableEq, Repr

/-- The key of each rule in the `default_rules` dict. -/
def RuleId.name : RuleId → String
  | .arrayRule => "Array"
  | .heading => "heading"
  | .nptable => "nptable"
  | .lheading => "lheading"
  | .hr => "hr"
  | .codeBlock => "codeBlock"
  | .fence => "fence"
  | .blockQuote => "blockQuote"
  | .listRule => "list"
  | .defRule => "def"
  | .table => "table"
  | .newline => "newline"
  | .paragraph => "paragraph"
  | .escape => "escape"
  | .tableSeparator => "tableSeparator"
  | .autolink => "autolink"
  | .mailto => "mailto"
  | .url => "url"
  | .link => "link"
  | .image => "image"
  | .reflink => "reflink"
  | .refimage => "refimage"
  | .em => "em"
  | .strong => "strong"
  | .u => "u"
  | .del => "del"
  | .inlineCode => "inlineCode"
  | .br => "br"
  | .text => "text"

/-- The keys of the default rule table, in dict insertion order. -/
def defaultRuleIds : List RuleId :=
  [.arrayRule, .heading, .nptable, .lheading, .hr, .codeBlock, .fence, .blockQuote,
   .listRule, .defRule, .table, .newline, .paragraph, .escape, .tableSeparator,
   .autolink, .mailto, .url, .link, .image, .reflink, .refimage,
   .em, .strong, .u, .del, .inlineCode, .br, .text]

/-- Keys `list(default_rules.keys())` as strings: the type names a renderer can
dispatch on. -/
def defaultRuleKeys : List String := defaultRuleIds.map RuleId.name

/-- The `order` of each rule, following the walrus-increment construction of
`default_rules` (note that `em`, `strong` and `u` all receive order 21:
`em`/`strong` are given `current_order` without incrementing, and `u`'s
post-increment hands it the same value). -/
def RuleId.order : RuleId → Int
  | .arrayRule => 0
  | .heading => 0
  | .nptable => 1
  | .lheading => 2
  | .hr => 3
  | .codeBlock => 4
  | .fence => 5
  | .blockQuote => 6
  | .listRule => 7
  | .defRule => 8
  | .table => 9
  | .newline => 10
  | .paragraph => 11
  | .escape => 12
  | .tableSeparator => 13
  | .autolink => 14
  | .mailto => 15
  | .url => 16
  | .link => 17
  | .image => 18
  | .reflink => 19
  | .refimage => 20
  | .em => 21
  | .strong => 21
  | .u => 21
  | .del => 22
  | .inlineCode => 23
  | .br => 24
  | .text => 25

/-- Which rules define a `quality` method. -/
def RuleId.hasQuality : RuleId → Bool
  | .em => true
  | .strong => true
  | .u => true
  | _ => false

/-- The rules' quality scores in tenths (exact integer encoding of the
floats `len+0.2`, `len+0.1`, `len` and the initial `-1`):
Em.quality, Strong.quality, U.quality. -/
def RuleId.quality (r : RuleId) (cap : Capture) : Int :=
  match r with
  | .em => 10 * cap.full.length + 2
  | .strong => 10 * cap.full.length + 1
  | .u => 10 * cap.full.length
  | _ => 0

/-- Python `<` on strings: lexicographic by code point. -/
def strLt : Str → Str → Bool
  | [], [] => false
  | [], _ :: _ => true
  | _ :: _, [] => false
  | a :: as, b :: bs =>
    if a = b then strLt as bs else decide (a < b)

/-- Comparator `sort_rules`: compare by order, then quality-bearing first, then name. -/
def sortRulesCmp (a b : RuleId) : Int :=
  if a.order ≠ b.order then a.order - b.order
  else
    let sa : Int := if a.hasQuality then 0 else 1
    let sb : Int := if b.hasQuality then 0 else 1
    if sa ≠ sb then sa - sb
    else if strLt a.name.data b.name.data then -1
    else if strLt b.name.data a.name.data then 1
    else 0

/-- Stable insertion sort by a comparator (the comparator above is a strict
total order on the default rules, so this agrees with Python's sort). -/
def insortBy (cmp : RuleId → RuleId → Int) (x : RuleId) : List RuleId → List RuleId
  | [] => [x]
  | y :: rest => if cmp x y < 0 then x :: y :: rest else y :: insortBy cmp x rest

def sortBy (cmp : RuleId → RuleId → Int) (l : List RuleId) : List RuleId :=
  l.foldr (insortBy cmp) []

/-- The `rule_list` of parser_for for the default rules: every entry passes
filter_rules (all rules inherit a `match` attribute from Rule and all
orders are numeric), then the list is sorted. -/
def ruleList : List RuleId := sortBy sortRulesCmp defaultRuleIds

/-! ### Rule matchers -/

/-- The wrapper `inline_regex`: matches only when `state['inline']` is truthy. -/
def inlineRe (r : RE) (n : Nat) (source : Str) (st : MDState) : Option Capture :=
  if st.inline then reMatch r n source else none

/-- The wrapper `block_regex`: matches only when `state['inline']` is falsy. -/
def blockRe (r : RE) (n : Nat) (source : Str) (st : MDState) : Option Capture :=
  if st.inline then none else reMatch r n source

/-- List.match: anchored lookbehind over the previous capture text, the
`_list or not inline` gate, then LIST_R applied to the captured indentation
prepended to the source. -/
def listMatch (source : Str) (st : MDState) : Option Capture :=
  let prevStr := match st.prevCapture with | none => [] | some c => c.full
  match reMatch Rx.listLookbehind 1 prevStr with
  | some lb =>
    if st.listFlag || !st.inline then reMatch Rx.listR 2 (lb.grpD 1 ++ source)
    else none
  | none => none

/-- The `match` of every default rule.  `Array` inherits the base Rule.match,
which returns None. -/
def ruleMatch (r : RuleId) (source : Str) (st : MDState) : Option Capture :=
  match r with
  | .arrayRule => none
  | .heading => blockRe Rx.heading 2 source st
  | .nptable => blockRe Rx.nptableRegex 3 source st
  | .lheading => blockRe Rx.lheading 2 source st
  | .hr => blockRe Rx.hr 1 source st
  | .codeBlock => blockRe Rx.codeBlock 0 source st
  | .fence => blockRe Rx.fence 3 source st
  | .blockQuote => blockRe Rx.blockQuote 2 source st
  | .listRule => listMatch source st
  | .defRule => blockRe Rx.defR 3 source st
  | .table => blockRe Rx.tableRegex 3 source st
  | .newline => blockRe Rx.newline 0 source st
  | .paragraph => blockRe Rx.paragraph 1 source st
  | .escape => inlineRe Rx.escape 1 source st
  | .tableSeparator => if st.inTable then reMatch Rx.tableSeparator 0 source else none
  | .autolink => inlineRe Rx.autolink 1 source st
  | .mailto => inlineRe Rx.mailto 1 source st
  | .url => inlineRe Rx.url 1 source st
  | .link => inlineRe Rx.link 3 source st
  | .image => inlineRe Rx.image 3 source st
  | .reflink => inlineRe Rx.reflink 2 source st
  | .refimage => inlineRe Rx.refimage 2 source st
  | .em => inlineRe Rx.em 2 source st
  | .strong => inlineRe Rx.strong 1 source st
  | .u => inlineRe Rx.uR 1 source st
  | .del => inlineRe Rx.delR 1 source st
  | .inlineCode => inlineRe Rx.inlineCode 2 source st
  | .br => reMatch Rx.br 0 source
  | .text => reMatch Rx.text 0 source

/-- The rule-selection loop of nested_parse.  The loop continues on the
first iteration, while no rule has matched, or while the current rule has
the same order as the previously examined one and carries a quality
function; a matching rule displaces the best only when its quality is
strictly greater (`if not (current_quality <= quality)`). -/
def selectAux (source : Str) (st : MDState) :
    List RuleId → Bool → Option (RuleId × Capture) → Int → Int →
    Option (RuleId × Capture)
  | [], _, best, _, _ => best
  | r :: rest, isFirst, best, qual, curOrd =>
    if isFirst || best.isNone || (r.order = curOrd && r.hasQuality) then
      let newOrd := r.order
      match ruleMatch r source st with
      | some cap =>
        let q := if r.hasQuality then r.quality cap else 0
        if qual < q then selectAux source st rest false (some (r, cap)) q newOrd
        else selectAux source st rest false best qual newOrd
      | none => selectAux source st rest false best qual newOrd
    else best

/-- Select the winning (rule, capture) at the current position; `-10` is the
initial quality `-1` in tenths. -/
def selectCapture (source : Str) (st : MDState) : Option (RuleId × Capture) :=
  selectAux source st ruleList true none (-10) 0

/-! ### Rule parsers -/

/-- The type of the reentrant parse function passed to every rule's
`parse`. -/
abbrev ParseFn := Str → MDState → Option (List Node × MDState)

/-- The helper `parse_inline`: save `inline`, parse with `inline = True`, restore. -/
def parseInlineSub (recur : ParseFn) (content : Str) (st : MDState) :
    Option (List Node × MDState) :=
  let old := st.inline
  match recur content { st with inline := true } with
  | some (ns, st1) => some (ns, { st1 with inline := old })
  | none => none

/-- The helper `parse_ref(capture, state, ref_node)`: normalize the name, initialize
the node's target/title from `_defs` when present, and append the node to
`_refs[name]`.  Returns the fresh heap id of the shared node cell. -/
def parseRef (cap : Capture) (st : MDState) : Nat × MDState :=
  let ref := normalizeRef ((pyOr (cap.grp 2) (cap.grp 1)).getD [])
  let cell : Option Str × Option Str :=
    match (if st.defs.isEmpty then none else alistGet st.defs ref) with
    | some (t, ti) => (some t, ti)
    | none => (none, none)
  let i := st.nextId
  let ids := (alistGet st.refs ref).getD []
  (i, { st with
    nextId := i + 1
    store := storeSet st.store i cell
    refs := alistSet st.refs ref (ids ++ [i]) })

/-- Def.parse: normalize the name, back-patch every queued ref node, record
the definition. -/
def defParse (cap : Capture) (st : MDState) : Node × MDState :=
  let name := normalizeRef (cap.grpD 1)
  let target := cap.grpD 2
  let title := cap.grp 3
  let st1 :=
    match (if st.refs.isEmpty then none else alistGet st.refs name) with
    | some ids =>
      if ids.isEmpty then st
      else { st with store := ids.foldl (fun h i => storeSet h i (some target, title)) st.store }
    | none => st
  ({ st1 with defs := alistSet st1.defs name (target, title) } |>
    fun st2 => (Node.defNode name target title, st2))

/-- List.parse's bullet-number extraction: `int(re.sub(r'[^\d]+?', '', bullet))`. -/
def bulletStart (bullet : Str) : Nat := digitsToNat (reSubC Rx.nonDigits 0 [] bullet 0)

/-- The indentation-stripping regex `^ {1,space}` of List.parse. -/
def spaceRegex (space : Nat) : RE := RE.cat .bos (RE.rep true 1 (some space) (RE.chr ' '))

/-- The body of List.parse's `content_map` for one item, threading
`last_item_was_a_paragraph` and the state.  `re.sub(space_regex, '', item,
re.MULTILINE)` passes MULTILINE (= 8) as the count argument, so the flag is
not applied and `^` anchors at the start only. -/
def listItemStep (recur : ParseFn) (n : Nat) (acc : Bool × MDState × List (List Node))
    (p : Nat × Capture) : Option (Bool × MDState × List (List Node)) :=
  let (lastPara, st0, out) := acc
  let item := p.2.full
  let space := match reMatch Rx.listItemPrefixR 2 item with
    | some pc => pc.full.length
    | none => 0
  let content := reSubC Rx.listItemPrefixR 2 []
    (reSubC (spaceRegex space) 0 [] item 8) 1
  let isLast := p.1 = n - 1
  let containsBlocks := containsSub (str "\n\n") content
  let thisPara := containsBlocks || (isLast && lastPara)
  let oldInline := st0.inline
  let oldList := st0.listFlag
  let (st1, adjusted) :=
    if thisPara then
      ({ st0 with listFlag := true, inline := false },
        reSubC Rx.listItemEnd 0 (str "\n\n") content 1)
    else
      ({ st0 with listFlag := true, inline := true },
        reSubC Rx.listItemEnd 0 [] content 1)
  match recur adjusted st1 with
  | some (ns, st2) =>
    some (thisPara, { st2 with inline := oldInline, listFlag := oldList }, out ++ [ns])
  | none => none

/-- List.parse. -/
def listParse (recur : ParseFn) (cap : Capture) (st : MDState) :
    Option (Node × MDState) :=
  let bullet := cap.grpD 2
  let ordered := decide (bullet.length > 1)
  let start : Option Nat := if ordered then some (bulletStart bullet) else none
  let items := reFindIter Rx.listItemR 3 (reSubC Rx.blockEnd 0 (str "\n") cap.full 1)
  let n := items.length
  match items.enum.foldl
      (fun acc p => match acc with
        | some a => listItemStep recur n a p
        | none => none)
      (some (false, st, [])) with
  | some (_, stF, itemsOut) => some (.list ordered start itemsOut, stF)
  | none => none

/-- Replace the content of a text node by its cell-end-trimmed version
(`TABLE_CELL_END_TRIM.sub("", content, count=1)`). -/
def trimTextEnd : Node → Node
  | .text c => .text (reSubC Rx.tableCellEndTrim 0 [] c 1)
  | n => n

/-- Append a node to the last cell. -/
def appendToLast (cells : List (List Node)) (n : Node) : List (List Node) :=
  cells.dropLast ++ [cells.getLastD [] ++ [n]]

/-- The cell-grouping fold of parse_table_row over the parsed row nodes. -/
def groupCells (row : List Node) (trimEnd : Bool) : List (List Node) :=
  let n := row.length
  row.enum.foldl (fun cells p =>
    let (index, node) := p
    if node.typeStr = "table_separator" then
      if !trimEnd || (index ≠ 0 && index ≠ n - 1) then cells ++ [[]] else cells
    else
      let cond := if n > index + 1 then
          node.typeStr = "text" &&
            ((row.get? (index + 1)).map Node.typeStr = some "table_separator")
        else false
      appendToLast cells (if cond then trimTextEnd node else node)) [[]]

/-- parse_table_row: parse the stripped row with `in_table = True`, restore
the flag, then group on table_separator nodes. -/
def parseTableRow (recur : ParseFn) (source : Str) (st : MDState) (trimEnd : Bool) :
    Option (List (List Node) × MDState) :=
  let prevInTable := st.inTable
  match recur (stripWs source) { st with inTable := true } with
  | some (row, st1) => some (groupCells row trimEnd, { st1 with inTable := prevInTable })
  | none => none

/-- parse_table_align_capture. -/
def parseTableAlignCapture (s : Str) : Option String :=
  if (reMatch Rx.tableRightAlign 0 s).isSome then some "right"
  else if (reMatch Rx.tableCenterAlign 0 s).isSome then some "center"
  else if (reMatch Rx.tableLeftAlign 0 s).isSome then some "left"
  else none

/-- parse_table_align. -/
def parseTableAlign (source : Str) (trimEnd : Bool) : List (Option String) :=
  let source := if trimEnd then reSubC Rx.tableRowSeparatorTrim 0 [] source 0 else source
  (splitOn '|' (stripWs source)).map parseTableAlignCapture

/-- parse_table_cells: split on newlines and parse each row. -/
def parseTableCells (recur : ParseFn) (source : Str) (st : MDState) (trimEnd : Bool) :
    Option (List (List (List Node)) × MDState) :=
  (splitOn '\n' (stripWs source)).foldl
    (fun acc rowText => match acc with
      | some (rows, st0) =>
        match parseTableRow recur rowText st0 trimEnd with
        | some (cells, st1) => some (rows ++ [cells], st1)
        | none => none
      | none => none)
    (some ([], st))

/-- parse_table(trim_end_separators): set `inline = True`, parse header,
align and cells, set `inline = False`. -/
def parseTable (trimEnd : Bool) (recur : ParseFn) (cap : Capture) (st : MDState) :
    Option (Node × MDState) :=
  let st0 := { st with inline := true }
  match parseTableRow recur (cap.grpD 1) st0 trimEnd with
  | some (header, st1) =>
    let align := parseTableAlign (cap.grpD 2) trimEnd
    match parseTableCells recur (cap.grpD 3) st1 trimEnd with
    | some (cells, st2) =>
      some (.table header align cells, { st2 with inline := false })
    | none => none
  | none => none

/-- The `parse` of every default rule.  Nodes whose Python parse leaves `type`
unset receive the rule's name in nested_parse; the constructors already
encode that.  MailTo prefixes `mailto:` unless already present
(case-insensitively); AutoLink and MailTo build dicts with no `title` key,
modelled as `none`. -/
def ruleParse (recur : ParseFn) (r : RuleId) (cap : Capture) (st : MDState) :
    Option (Node × MDState) :=
  match r with
  | .arrayRule => none
  | .heading =>
    match parseInlineSub recur (stripWs (cap.grpD 2)) st with
    | some (content, st1) => some (.heading (cap.grpD 1).length content, st1)
    | none => none
  | .nptable => parseTable false recur cap st
  | .lheading =>
    match parseInlineSub recur (cap.grpD 1) st with
    | some (content, st1) =>
      some (.heading (if cap.grpD 2 = str "=" then 1 else 2) content, st1)
    | none => none
  | .hr => some (.hr, st)
  | .codeBlock =>
    some (.codeBlock none
      (reSubC Rx.trailingNls 0 [] (reSubC Rx.codeBlockIndent 0 [] cap.full 0) 0), st)
  | .fence =>
    some (.codeBlock (if pyTruthy (cap.grp 2) then cap.grp 2 else none) (cap.grpD 3), st)
  | .blockQuote =>
    match recur (reSubC Rx.blockQuoteStrip 0 [] cap.full 0) st with
    | some (content, st1) => some (.blockQuote content, st1)
    | none => none
  | .listRule => listParse recur cap st
  | .defRule => some (defParse cap st)
  | .table => parseTable true recur cap st
  | .newline => some (.newline, st)
  | .paragraph =>
    match parseInlineSub recur (cap.grpD 1) st with
    | some (content, st1) => some (.paragraph content, st1)
    | none => none
  | .escape => some (.text (cap.grpD 1), st)
  | .tableSeparator => some (.tableSep, st)
  | .autolink => some (.link [.text (cap.grpD 1)] (cap.grpD 1) none, st)
  | .mailto =>
    let address := cap.grpD 1
    let target := if (reMatch Rx.mailtoCheck 0 address).isSome then address
      else str "mailto:" ++ address
    some (.link [.text address] target none, st)
  | .url => some (.link [.text (cap.grpD 1)] (cap.grpD 1) none, st)
  | .link =>
    match recur (cap.grpD 1) st with
    | some (content, st1) =>
      some (.link content (unescapeUrl (cap.grpD 2)) (cap.grp 3), st1)
    | none => none
  | .image => some (.image (cap.grpD 1) (unescapeUrl (cap.grpD 2)) (cap.grp 3), st)
  | .reflink =>
    match recur (cap.grpD 1) st with
    | some (content, st1) =>
      let (i, st2) := parseRef cap st1
      some (.refLink i content, st2)
    | none => none
  | .refimage =>
    let (i, st1) := parseRef cap st
    some (.refImage i (cap.grpD 1), st1)
  | .em =>
    match recur ((pyOr (cap.grp 2) (cap.grp 1)).getD []) st with
    | some (content, st1) => some (.em content, st1)
    | none => none
  | .strong =>
    match parseInlineSub recur (cap.grpD 1) st with
    | some (content, st1) => some (.strong content, st1)
    | none => none
  | .u =>
    match parseInlineSub recur (cap.grpD 1) st with
    | some (content, st1) => some (.underline content, st1)
    | none => none
  | .del =>
    match parseInlineSub recur (cap.grpD 1) st with
    | some (content, st1) => some (.strikethrough content, st1)
    | none => none
  | .inlineCode =>
    some (.inlineCode (reSub Rx.inlineCodeEscape 1 (fun c => c.grpD 1) (cap.grpD 2) 0), st)
  | .br => some (.br, st)
  | .text => some (.text cap.full, st)

/-! ### The parse loop -/

/-- nested_parse: while the source is non-empty, select the best capture,
run the winning rule's parse, record `previous_capture` and drop the
consumed text.  The fuel only bounds the recursion (the Python loop plus
the reentrant sub-parses); every concrete run here uses ample fuel. -/
def runParse : Nat → Str → MDState → Option (List Node × MDState)
  | 0, _, _ => none
  | fuel + 1, source, st =>
    if source.isEmpty then some ([], st)
    else
      match selectCapture source st with
      | none => none
      | some (rt, cap) =>
        match ruleParse (runParse fuel) rt cap st with
        | none => none
        | some (node, st1) =>
          let st2 := { st1 with prevCapture := some cap }
          match runParse fuel (source.drop cap.full.length) st2 with
          | some (ns, st3) => some (node :: ns, st3)
          | none => none

/-- Parse fuel for the concrete runs in this file. -/
def parseFuel : Nat := 64

/-- outer_parse of parser_for(default_rules): populate the (empty) default
state, append two newlines unless inline, clear `previous_capture`,
preprocess and run. -/
def outerParse (source : Str) (st : MDState) : Option (List Node × MDState) :=
  let source := if !st.inline then source ++ str "\n\n" else source
  runParse parseFuel (preprocess source) { st with prevCapture := none }

/-- default_block_parse. -/
def defaultBlockParse (source : Str) : Option (List Node × MDState) :=
  outerParse source { inline := false }

/-- default_inline_parse. -/
def defaultInlineParse (source : Str) : Option (List Node × MDState) :=
  outerParse source { inline := true }

/-- default_implicit_parse decides the mode with
`is_block = BLOCK_END_R.match(source)`, i.e. Python's anchored `match`, and
sets `state['inline'] = not is_block`. -/
def implicitParseInline (source : Str) : Bool :=
  !(reMatch Rx.blockEnd 0 source).isSome

def defaultImplicitParse (source : Str) : Option (List Node × MDState) :=
  outerParse source { inline := implicitParseInline source }

/-- The node list of a parse, for stating tree facts. -/
def parsedNodes (p : Option (List Node × MDState)) : List Node :=
  match p with
  | some (ns, _) => ns
  | none => []

/-- Direct children of a node (content lists, list items, table cells). -/
def Node.children : Node → List Node
  | .paragraph c => c
  | .heading _ c => c
  | .blockQuote c => c
  | .list _ _ items => items.flatten
  | .table h _ cells => h.flatten ++ (cells.map List.flatten).flatten
  | .link c _ _ => c
  | .refLink _ c => c
  | .em c => c
  | .strong c => c
  | .underline c => c
  | .strikethrough c => c
  | _ => []

/-- All `type` strings occurring anywhere in a tree (fuel bounds depth). -/
def nodeTypes : Nat → List Node → List String
  | 0, _ => []
  | f + 1, ns => ns.map Node.typeStr ++ nodeTypes f ((ns.map Node.children).flatten)

/-! ### HTML rendering -/

/-- Python `str(n)` for the naturals rendered into HTML. -/
def natToStr (n : Nat) : Str := Nat.toDigits 10 n

/-- One character through `SANITIZE_TEXT_R.sub`: the regex class contains
only the five characters below, so the `/` and backtick entries of
SANITIZE_TEXT_CODES are never used. -/
def sanitizeChar (c : Char) : Str :=
  if c = '<' then str "&lt;"
  else if c = '>' then str "&gt;"
  else if c = '&' then str "&amp;"
  else if c = dq then str "&quot;"
  else if c = sq then str "&#x27;"
  else [c]

/-- sanitize_text. -/
def sanitizeText (s : Str) : Str := s.foldr (fun c acc => sanitizeChar c ++ acc) []

/-- html_tag: attribute values are falsy-filtered (None or empty string
drop the attribute) and both attribute names and values pass
sanitize_text. -/
def htmlTag (tagName content : Str) (attributes : List (Str × Option Str))
    (isClosed : Bool) : Str :=
  let attributeString := attributes.foldl (fun acc p =>
    match p.2 with
    | some value =>
      if value.isEmpty then acc
      else acc ++ [' '] ++ sanitizeText p.1 ++ ['='] ++ [dq] ++ sanitizeText value ++ [dq]
    | none => acc) []
  let unclosedTag := ['<'] ++ tagName ++ attributeString ++ ['>']
  if isClosed then unclosedTag ++ content ++ ['<', '/'] ++ tagName ++ ['>']
  else unclosedTag

/-- Leading run of text nodes: concatenated contents and the remainder
(the merge loop of Array.html / Array.react). -/
def takeTextRun : List Node → Str × List Node
  | .text c :: rest =>
    let (cs, r) := takeTextRun rest
    (c ++ cs, r)
  | l => ([], l)

/-- Array.html: walk the siblings, merging every run of consecutive text
nodes into one synthetic text node, and concatenate the outputs (this
variant does advance its index). -/
def arrayHtml (output : Node → Option Str) : List Node → Nat → Option Str
  | [], _ => some []
  | _ :: _, 0 => none
  | .text c :: rest, fuel + 1 =>
    let (cs, r) := takeTextRun rest
    match output (.text (c ++ cs)) with
    | some out =>
      match arrayHtml output r fuel with
      | some outR => some (out ++ outR)
      | none => none
    | none => none
  | n :: rest, fuel + 1 =>
    match output n with
    | some out =>
      match arrayHtml output rest fuel with
      | some outR => some (out ++ outR)
      | none => none
    | none => none

/-- The `style` attribute value of the table renderer's get_style;
`none` models the IndexError Python raises when a row is wider than the
align list. -/
def tableStyle (align : List (Option String)) (i : Nat) : Option (Option Str) :=
  match align.get? i with
  | none => none
  | some none => some none
  | some (some a) => some (some (str "text-align:" ++ a.data ++ str ";"))

/-- The `html` of every default rule, dispatched on the node's `type` as
`rules[ast['type']]` does.  A `table_separator` node has no entry in the
rule table (the key is `tableSeparator`), so dispatch fails: `none`.
A `refLink`/`refImage` node reaches Link.html/Image.html through its
shared cell; rendering it directly without the resolved target models the
missing `target` key, hence `none`. -/
def htmlOut : Nat → Node → Option Str
  | 0, _ => none
  | f + 1, node =>
    match node with
    | .text c => some (sanitizeText c)
    | .paragraph c =>
      (arrayHtml (htmlOut f) c f).map (fun inner =>
        htmlTag (str "div") inner [(str "class", some (str "paragraph"))] true)
    | .heading level c =>
      (arrayHtml (htmlOut f) c f).map (fun inner =>
        htmlTag (['h'] ++ natToStr level) inner [] true)
    | .hr => some (str "<hr>")
    | .codeBlock lang c =>
      let className : Option Str := match lang with
        | some l => if l.isEmpty then none else some (str "markdown-code-" ++ l)
        | none => none
      some (htmlTag (str "pre")
        (htmlTag (str "code") (sanitizeText c) [(str "class", className)] true) [] true)
    | .blockQuote c =>
      (arrayHtml (htmlOut f) c f).map (fun inner => htmlTag (str "blockquote") inner [] true)
    | .list ordered start items =>
      match items.foldl (fun acc item =>
          match acc, arrayHtml (htmlOut f) item f with
          | some s, some inner => some (s ++ htmlTag (str "li") inner [] true)
          | _, _ => none) (some []) with
      | some listItems =>
        let startAttr : Option Str := match start with
          | some n => if n = 0 then none else some (natToStr n)
          | none => none
        some (htmlTag (if ordered then str "ol" else str "ul") listItems
          [(str "start", startAttr)] true)
      | none => none
    | .defNode _ _ _ => some []
    | .table header align cells =>
      let cellFold := fun (tag : Str) (scope : Bool) (row : List (List Node)) =>
        row.enum.foldl (fun acc p =>
          match acc, tableStyle align p.1, arrayHtml (htmlOut f) p.2 f with
          | some s, some style, some inner =>
            some (s ++ htmlTag tag inner
              ((str "style", style) ::
                (if scope then [(str "scope", some (str "col"))] else [])) true)
          | _, _, _ => none) (some ([] : Str))
      match cellFold (str "th") true header with
      | some headers =>
        match cells.foldl (fun acc row =>
            match acc, cellFold (str "td") false row with
            | some s, some tds => some (s ++ htmlTag (str "tr") tds [] true)
            | _, _ => none) (some ([] : Str)) with
        | some rows =>
          some (htmlTag (str "table")
            (htmlTag (str "thead") (htmlTag (str "tr") headers [] true) [] true ++
             htmlTag (str "tbody") rows [] true) [] true)
        | none => none
      | none => none
    | .newline => some (str "\n")
    | .tableSep => none
    | .link c target title =>
      (arrayHtml (htmlOut f) c f).map (fun inner =>
        htmlTag (str "a") inner
          [(str "href", some (sanitizeText target)), (str "title", title)] true)
    | .refLink _ _ => none
    | .image alt target title =>
      some (htmlTag (str "img") []
        [(str "src", some (sanitizeText target)), (str "alt", some alt),
         (str "title", title)] false)
    | .refImage _ _ => none
    | .em c => (arrayHtml (htmlOut f) c f).map (fun inner => htmlTag (str "em") inner [] true)
    | .strong c =>
      (arrayHtml (htmlOut f) c f).map (fun inner => htmlTag (str "strong") inner [] true)
    | .underline c =>
      (arrayHtml (htmlOut f) c f).map (fun inner => htmlTag (str "u") inner [] true)
    | .strikethrough c =>
      (arrayHtml (htmlOut f) c f).map (fun inner => htmlTag (str "del") inner [] true)
    | .inlineCode c => some (htmlTag (str "code") (sanitizeText c) [] true)
    | .br => some (str "<br>")

/-! ### Array.react -/

/-- Number of leading text nodes. -/
def leadingTexts : List Node → Nat
  | .text _ :: rest => leadingTexts rest + 1
  | _ => 0

/-- Concatenated contents of a leading text run. -/
def textContents : List Node → Str
  | .text c :: rest => c ++ textContents rest
  | _ => []

/-- Array.react, modelled index-faithfully with fuel.  `output` receives
the node and the `state['key']` assigned for it (`str(i)`).  The Python
loop advances `i` only inside the text-merging inner while loop — there is
no `i += 1` in the outer loop body (Array.html has one) — so after
processing the node at `i` the loop re-enters with the same index. -/
def arrayReact {α : Type} (output : Node → Str → Option α) (arr : List Node) :
    Nat → Nat → List α → Option (List α)
  | 0, _, _ => none
  | fuel + 1, i, acc =>
    if i < arr.length then
      let key := natToStr i
      let node := (arr.drop i).headD .br
      let (node', i') :=
        if node.typeStr = "text" then
          let run := leadingTexts (arr.drop (i + 1))
          (Node.text (textContents ((arr.drop i).take (run + 1))), i + run)
        else (node, i)
      match output node' key with
      | some v => arrayReact output arr fuel i' (acc ++ [v])
      | none => none
    else some acc

/-! ### filter_rules of parser_for -/

/-- What filter_rules inspects about a rule object: whether it (inherits) a
`match` attribute, and whether its `order` is a `numbers.Number`. -/
structure PyRule where
  hasMatch : Bool
  orderIsNumber : Bool

/-- Dict lookup for the abstract rule map. -/
def pyrGet (rules : List (String × PyRule)) (k : String) : Option PyRule :=
  match rules.find? (fun p => p.1 = k) with
  | some p => some p.2
  | none => none

/-- filter_rules: drop a rule only when it is missing or has no `match`;
a non-numeric order is merely warned about (`return True` runs anyway). -/
def filterRule (r : Option PyRule) : Bool × Bool :=
  match r with
  | none => (false, false)
  | some rule =>
    if !rule.hasMatch then (false, false)
    else (true, !rule.orderIsNumber)

/-- The list `rule_list = list(filter(filter_rules, rules.keys()))` (before sorting). -/
def parserForRuleList (rules : List (String × PyRule)) : List String :=
  (rules.map Prod.fst).filter (fun k => (filterRule (pyrGet rules k)).1)

/-- The rule names for which filter_rules prints the invalid-order warning. -/
def parserForWarnings (rules : List (String × PyRule)) : List String :=
  (rules.map Prod.fst).filter (fun k => (filterRule (pyrGet rules k)).2)

/-! ## Theorems -/

/-! ### C10: preprocess is idempotent -/

theorem crSub_not_cr (s : Str) : '\r' ∉ crSub s := by
  induction s using crSub.induct <;> simp_all [crSub]
  exact Ne.symm ‹_›

theorem crSub_id (s : Str) (h : '\r' ∉ s) : crSub s = s := by
  induction s using crSub.induct <;> simp_all [crSub]

theorem ffSub_not_ff (s : Str) : '\x0c' ∉ ffSub s := by
  simp [ffSub]

theorem ffSub_id (s : Str) (h : '\x0c' ∉ s) : ffSub s = s := by
  rw [ffSub, List.filter_eq_self]
  intro a ha
  simp only [decide_eq_true_eq]
  exact fun hc => h (hc ▸ ha)

theorem tabSub_not_tab (s : Str) : '\t' ∉ tabSub s := by
  simp only [tabSub, List.mem_map]
  rintro ⟨c, _, hc⟩
  by_cases h : c = '\t' <;> simp_all

theorem tabSub_id (s : Str) (h : '\t' ∉ s) : tabSub s = s := by
  rw [tabSub]
  conv_rhs => rw [← List.map_id s]
  apply List.map_congr_left
  intro a ha
  exact if_neg (fun (hc : a = '\t') => h (hc ▸ ha))

theorem mem_ffSub (c : Char) (s : Str) (h : c ∈ ffSub s) : c ∈ s :=
  List.mem_of_mem_filter h

theorem mem_tabSub (c : Char) (s : Str) (hc : c ≠ '\n') (h : c ∈ tabSub s) : c ∈ s := by
  simp only [tabSub, List.mem_map] at h
  obtain ⟨a, ha, hac⟩ := h
  by_cases h1 : a = '\t'
  · subst h1; simp at hac; exact absurd hac.symm hc
  · simp [h1] at hac; exact hac ▸ ha

/-- C10: `preprocess(preprocess(s)) == preprocess(s)` — after one pass the
output has no carriage returns, form feeds or tabs, so the second pass is
the identity. -/
theorem c10_preprocess_idempotent (s : Str) : preprocess (preprocess s) = preprocess s := by
  have hr : '\r' ∉ preprocess s := by
    intro h
    exact crSub_not_cr s (mem_ffSub _ _ (mem_tabSub _ _ (by decide) h))
  have hf : '\x0c' ∉ preprocess s := by
    intro h
    exact ffSub_not_ff (crSub s) (mem_tabSub _ _ (by decide) h)
  have ht : '\t' ∉ preprocess s := tabSub_not_tab _
  rw [preprocess, crSub_id _ hr, ffSub_id _ hf, tabSub_id _ ht]

/-! ### C1: the implicit-parse mode decision -/

/-- C1 (code bug): default_implicit_parse tests `BLOCK_END_R.match(source)`
with Python's position-0-anchored `match`, so the end-anchored `\n{2,}$`
only fires on sources made entirely of newlines.  For the failing input
`"a\n\n"` — which ends in two newlines — the code sets `inline = True` and
parses in inline mode (three bare text nodes), whereas the claim (and the
evident intent of BLOCK_END_R, cf. the block parse shown last) requires
block mode; `"\n\n"` is the kind of source that does set `inline = False`. -/
theorem c1_code_bug :
    implicitParseInline (str "a\n\n") = true ∧
    implicitParseInline (str "\n\n") = false ∧
    (defaultImplicitParse (str "a\n\n")).map Prod.fst =
      some [Node.text (str "a"), Node.text (str "\n"), Node.text (str "\n")] ∧
    (defaultBlockParse (str "a\n\n")).map Prod.fst =
      some [Node.paragraph [Node.text (str "a")]] :=
  ⟨rfl, rfl, rfl, rfl⟩

/-! ### C5: non-numeric rule order -/

/-- A rule object whose `order` is not a number (it still inherits `match`
from Rule). -/
def badRule : PyRule := { hasMatch := true, orderIsNumber := false }

/-- C5 counterexample: the rule with non-numeric order is warned about but
NOT excluded — it stays in the active rule list, refuting the claim. -/
theorem c5_counterexample :
    parserForRuleList [("bad", badRule)] = ["bad"] ∧
    parserForWarnings [("bad", badRule)] = ["bad"] :=
  ⟨rfl, rfl⟩

/-- C5 (amended): a rule with a `match` attribute whose order is not a
number is warned about and nevertheless kept in the active rule list
(filter_rules returns True after printing the warning). -/
theorem c5_amended (rules : List (String × PyRule)) (k : String) (r : PyRule)
    (hget : pyrGet rules k = some r) (hm : r.hasMatch = true)
    (hnum : r.orderIsNumber = false) :
    k ∈ parserForRuleList rules ∧ k ∈ parserForWarnings rules := by
  have hmem : k ∈ rules.map Prod.fst := by
    rw [pyrGet] at hget
    rcases hfind : rules.find? (fun p => p.1 = k) with nf | p
    · rw [hfind] at hget; exact absurd hget (by simp)
    · have hp := List.find?_some hfind
      have hpm := List.mem_of_find?_eq_some hfind
      simp only [decide_eq_true_eq] at hp
      exact hp ▸ List.mem_map_of_mem Prod.fst hpm
  constructor
  · rw [parserForRuleList]
    refine List.mem_filter.mpr ⟨hmem, ?_⟩
    simp [hget, filterRule, hm]
  · rw [parserForWarnings]
    refine List.mem_filter.mpr ⟨hmem, ?_⟩
    simp [hget, filterRule, hm, hnum]

/-- C5 witness: the amended claim at the concrete one-rule map. -/
theorem c5_witness :
    "bad" ∈ parserForRuleList [("bad", badRule)] ∧
    "bad" ∈ parserForWarnings [("bad", badRule)] :=
  c5_amended [("bad", badRule)] "bad" badRule rfl rfl rfl

/-! ### C4: Array.react never terminates -/

/-- C4 (code bug): the element-format joiner Array.react never increments
its loop index outside the text-merging inner loop (Array.html does), so
on any non-empty node list it loops forever: for every fuel bound and
every output function the loop fails to finish.  Failing input:
`[{'type': 'text', 'content': 'a'}]`. -/
theorem c4_code_bug {α : Type} (output : Node → Str → Option α) (fuel : Nat)
    (acc : List α) :
    arrayReact output [Node.text (str "a")] fuel 0 acc = none := by
  induction fuel generalizing acc with
  | zero => rfl
  | succ f ih =>
    have hstep : arrayReact output [Node.text (str "a")] (f + 1) 0 acc =
        match output (Node.text (str "a")) (natToStr 0) with
        | some v => arrayReact output [Node.text (str "a")] f 0 (acc ++ [v])
        | none => none := rfl
    rw [hstep]
    cases output (Node.text (str "a")) (natToStr 0) with
    | none => rfl
    | some v => exact ih (acc ++ [v])

/-! ### C8: every selected capture is non-empty, so the loop makes progress -/

/-- Over-approximation of "can match the empty string".  Zero-width
constructs and backreferences count as possibly empty; a class never is. -/
def reNullable : RE → Bool
  | .eps => true
  | .cls _ => false
  | .cat a b => reNullable a && reNullable b
  | .alt a b => reNullable a || reNullable b
  | .rep _ lo _ a => decide (lo = 0) || reNullable a
  | .grp _ a => reNullable a
  | .look _ _ => true
  | .bos => true
  | .eol => true
  | .eolM => true
  | .wordB => true
  | .bref _ => true

theorem isPrefixOf_length_le (l1 : Str) : ∀ l2 : Str, l1.isPrefixOf l2 = true →
    l1.length ≤ l2.length := by
  induction l1 with
  | nil => intro l2 h; exact Nat.zero_le _
  | cons a t ih =>
    intro l2 h
    cases l2 with
    | nil => exact absurd h (by simp [List.isPrefixOf])
    | cons b u =>
      rw [List.isPrefixOf, Bool.and_eq_true] at h
      simpa using Nat.succ_le_succ (ih u h.2)

theorem charAt_lt (s : Str) (pos : Nat) (c : Char) (h : charAt s pos = some c) :
    pos < s.length := by
  by_contra hge
  push_neg at hge
  rw [charAt, List.drop_eq_nil_iff.mpr hge] at h
  exact absurd h (by simp)

/-- The engine only moves forward: a successful run hands its continuation
a position between `pos` and the end of the string, strictly beyond `pos`
when the regex cannot match the empty string. -/
theorem mrun_progress (s : Str) : ∀ (fuel : Nat) (r : RE) (pos : Nat) (g : Groups)
    (k : MCont) (res : Nat × Groups),
    mrun s fuel r pos g k = some res → pos ≤ s.length →
    ∃ p1 g1, pos ≤ p1 ∧ p1 ≤ s.length ∧ (reNullable r = false → pos < p1) ∧
      k p1 g1 = some res := by
  intro fuel
  induction fuel with
  | zero =>
    intro r pos g k res h
    rw [mrun] at h
    exact absurd h (by simp)
  | succ f ih =>
    have repAux : ∀ (greedy : Bool) (hi' : Option Nat) (a : RE) (pos : Nat) (g : Groups)
        (k : MCont) (res : Nat × Groups),
        pos ≤ s.length →
        (if greedy then
          match mrun s f a pos g (fun p1 g1 =>
              if pos < p1 then mrun s f (.rep greedy 0 hi' a) p1 g1 k else none) with
          | some r0 => some r0
          | none => k pos g
        else
          match k pos g with
          | some r0 => some r0
          | none =>
            mrun s f a pos g (fun p1 g1 =>
              if pos < p1 then mrun s f (.rep greedy 0 hi' a) p1 g1 k else none)) =
          some res →
        ∃ p1 g1, pos ≤ p1 ∧ p1 ≤ s.length ∧ k p1 g1 = some res := by
      intro greedy hi' a pos g k res hpos h
      have inner : ∀ (hin : mrun s f a pos g (fun p1 g1 =>
          if pos < p1 then mrun s f (.rep greedy 0 hi' a) p1 g1 k else none) = some res),
          ∃ p1 g1, pos ≤ p1 ∧ p1 ≤ s.length ∧ k p1 g1 = some res := by
        intro hin
        obtain ⟨p1, g1, hle1, hb1, _, hk1⟩ := ih a pos g _ res hin hpos
        by_cases hlt : pos < p1
        · rw [if_pos hlt] at hk1
          obtain ⟨p2, g2, hle2, hb2, _, hk2⟩ := ih _ p1 g1 k res hk1 hb1
          exact ⟨p2, g2, le_trans hle1 hle2, hb2, hk2⟩
        · rw [if_neg hlt] at hk1
          exact absurd hk1 (by simp)
      cases greedy with
      | true =>
        simp only [if_true] at h
        cases hm : mrun s f a pos g (fun p1 g1 =>
            if pos < p1 then mrun s f (.rep true 0 hi' a) p1 g1 k else none) with
        | some r0 =>
          rw [hm] at h
          exact inner (hm.trans (by injection h with h'; rw [h']))
        | none =>
          rw [hm] at h
          exact ⟨pos, g, le_refl _, hpos, h⟩
      | false =>
        simp only [if_false, Bool.false_eq_true, ite_false] at h
        cases hk0 : k pos g with
        | some r0 =>
          rw [hk0] at h
          injection h with h'
          exact ⟨pos, g, le_refl _, hpos, hk0.trans (by rw [h'])⟩
        | none =>
          rw [hk0] at h
          exact inner h
    intro r pos g k res h hpos
    cases r with
    | eps =>
      rw [mrun] at h
      exact ⟨pos, g, le_refl _, hpos, fun hc => by simp [reNullable] at hc, h⟩
    | cls p =>
      rw [mrun] at h
      cases hc : charAt s pos with
      | none => rw [hc] at h; exact absurd h (by simp)
      | some c =>
        rw [hc] at h
        dsimp only at h
        by_cases hp : p c = true
        · rw [if_pos hp] at h
          exact ⟨pos + 1, g, Nat.le_succ _, charAt_lt s pos c hc, fun _ => Nat.lt_succ_self _, h⟩
        · rw [if_neg hp] at h
          exact absurd h (by simp)
    | cat a b =>
      rw [mrun] at h
      obtain ⟨p1, g1, hle1, hb1, hs1, hk1⟩ := ih a pos g _ res h hpos
      obtain ⟨p2, g2, hle2, hb2, hs2, hk2⟩ := ih b p1 g1 k res hk1 hb1
      refine ⟨p2, g2, le_trans hle1 hle2, hb2, ?_, hk2⟩
      intro hn
      rw [reNullable, Bool.and_eq_false_iff] at hn
      rcases hn with hn | hn
      · exact lt_of_lt_of_le (hs1 hn) hle2
      · exact lt_of_le_of_lt hle1 (hs2 hn)
    | alt a b =>
      rw [mrun] at h
      cases ha : mrun s f a pos g k with
      | some r0 =>
        rw [ha] at h
        injection h with h'
        obtain ⟨p1, g1, hle1, hb1, hs1, hk1⟩ := ih a pos g k r0 ha hpos
        refine ⟨p1, g1, hle1, hb1, ?_, hk1.trans (by rw [h'])⟩
        intro hn
        rw [reNullable, Bool.or_eq_false_iff] at hn
        exact hs1 hn.1
      | none =>
        rw [ha] at h
        obtain ⟨p1, g1, hle1, hb1, hs1, hk1⟩ := ih b pos g k res h hpos
        refine ⟨p1, g1, hle1, hb1, ?_, hk1⟩
        intro hn
        rw [reNullable, Bool.or_eq_false_iff] at hn
        exact hs1 hn.2
    | rep greedy lo hi a =>
      cases hi with
      | some n =>
        cases n with
        | zero =>
          replace h : (if lo = 0 then k pos g else none) = some res := h
          by_cases hlo : lo = 0
          · rw [if_pos hlo] at h
            refine ⟨pos, g, le_refl _, hpos, ?_, h⟩
            intro hn
            rw [reNullable, hlo] at hn
            simp at hn
          · rw [if_neg hlo] at h
            exact absurd h (by simp)
        | succ m =>
          cases lo with
          | succ l =>
            replace h : mrun s f a pos g
                (fun p1 g1 => mrun s f (.rep greedy l (some m) a) p1 g1 k) = some res := h
            obtain ⟨p1, g1, hle1, hb1, hs1, hk1⟩ := ih a pos g _ res h hpos
            obtain ⟨p2, g2, hle2, hb2, _, hk2⟩ := ih _ p1 g1 k res hk1 hb1
            refine ⟨p2, g2, le_trans hle1 hle2, hb2, ?_, hk2⟩
            intro hn
            rw [reNullable] at hn
            simp at hn
            exact lt_of_lt_of_le (hs1 hn) hle2
          | zero =>
            replace h : (if greedy then
                match mrun s f a pos g (fun p1 g1 =>
                    if pos < p1 then mrun s f (.rep greedy 0 (some m) a) p1 g1 k else none) with
                | some r0 => some r0
                | none => k pos g
              else
                match k pos g with
                | some r0 => some r0
                | none =>
                  mrun s f a pos g (fun p1 g1 =>
                    if pos < p1 then mrun s f (.rep greedy 0 (some m) a) p1 g1 k else none)) =
                some res := h
            obtain ⟨p1, g1, hle1, hb1, hk1⟩ := repAux greedy (some m) a pos g k res hpos h
            refine ⟨p1, g1, hle1, hb1, ?_, hk1⟩
            intro hn
            rw [reNullable] at hn
            simp at hn
      | none =>
        cases lo with
        | succ l =>
          replace h : mrun s f a pos g
              (fun p1 g1 => mrun s f (.rep greedy l none a) p1 g1 k) = some res := h
          obtain ⟨p1, g1, hle1, hb1, hs1, hk1⟩ := ih a pos g _ res h hpos
          obtain ⟨p2, g2, hle2, hb2, _, hk2⟩ := ih _ p1 g1 k res hk1 hb1
          refine ⟨p2, g2, le_trans hle1 hle2, hb2, ?_, hk2⟩
          intro hn
          rw [reNullable] at hn
          simp at hn
          exact lt_of_lt_of_le (hs1 hn) hle2
        | zero =>
          replace h : (if greedy then
              match mrun s f a pos g (fun p1 g1 =>
                  if pos < p1 then mrun s f (.rep greedy 0 none a) p1 g1 k else none) with
              | some r0 => some r0
              | none => k pos g
            else
              match k pos g with
              | some r0 => some r0
              | none =>
                mrun s f a pos g (fun p1 g1 =>
                  if pos < p1 then mrun s f (.rep greedy 0 none a) p1 g1 k else none)) =
              some res := h
          obtain ⟨p1, g1, hle1, hb1, hk1⟩ := repAux greedy none a pos g k res hpos h
          refine ⟨p1, g1, hle1, hb1, ?_, hk1⟩
          intro hn
          rw [reNullable] at hn
          simp at hn
    | grp i a =>
      rw [mrun] at h
      obtain ⟨p1, g1, hle1, hb1, hs1, hk1⟩ := ih a pos g _ res h hpos
      exact ⟨p1, (i, pos, p1) :: g1, hle1, hb1, fun hn => hs1 (by rwa [reNullable] at hn), hk1⟩
    | look neg a =>
      rw [mrun] at h
      cases hm : mrun s f a pos g (fun p1 g1 => some (p1, g1)) with
      | some pg =>
        obtain ⟨pp, gg⟩ := pg
        rw [hm] at h
        dsimp only at h
        cases neg with
        | true => exact absurd h (by simp)
        | false =>
          exact ⟨pos, gg, le_refl _, hpos, fun hc => by simp [reNullable] at hc, h⟩
      | none =>
        rw [hm] at h
        dsimp only at h
        cases neg with
        | true => exact ⟨pos, g, le_refl _, hpos, fun hc => by simp [reNullable] at hc, h⟩
        | false => exact absurd h (by simp)
    | bos =>
      rw [mrun] at h
      by_cases hc : pos = 0
      · rw [if_pos hc] at h
        exact ⟨pos, g, le_refl _, hpos, fun hn => by simp [reNullable] at hn, h⟩
      · rw [if_neg hc] at h
        exact absurd h (by simp)
    | eol =>
      rw [mrun] at h
      split at h
      · exact ⟨pos, g, le_refl _, hpos, fun hn => by simp [reNullable] at hn, h⟩
      · exact absurd h (by simp)
    | eolM =>
      rw [mrun] at h
      split at h
      · exact ⟨pos, g, le_refl _, hpos, fun hn => by simp [reNullable] at hn, h⟩
      · exact absurd h (by simp)
    | wordB =>
      rw [mrun] at h
      split at h
      · exact ⟨pos, g, le_refl _, hpos, fun hn => by simp [reNullable] at hn, h⟩
      · exact absurd h (by simp)
    | bref i =>
      rw [mrun] at h
      cases hg : grpLookup g i with
      | none => rw [hg] at h; exact absurd h (by simp)
      | some sp =>
        obtain ⟨st1, en1⟩ := sp
        rw [hg] at h
        dsimp only at h
        split at h
        · next hpre =>
          have hlen : ((s.drop st1).take (en1 - st1)).length ≤ (s.drop pos).length :=
            isPrefixOf_length_le _ _ hpre
          rw [List.length_drop] at hlen
          refine ⟨pos + ((s.drop st1).take (en1 - st1)).length, g, Nat.le_add_right _ _,
            by omega, fun hn => by simp [reNullable] at hn, h⟩
        · exact absurd h (by simp)

/-- A successful anchored match of a non-nullable regex consumed at least
one character. -/
theorem reMatch_pos (r : RE) (n : Nat) (s : Str) (cap : Capture)
    (h : reMatch r n s = some cap) (hn : reNullable r = false) :
    1 ≤ cap.full.length := by
  rw [reMatch] at h
  cases hm : mrun s reFuel r 0 [] (fun p g => some (p, g)) with
  | none => rw [hm] at h; exact absurd h (by simp)
  | some pg =>
    rw [hm] at h
    injection h with h'
    obtain ⟨p1, g1, _, hb1, hs1, hk1⟩ :=
      mrun_progress s reFuel r 0 [] _ pg hm (Nat.zero_le _)
    injection hk1 with hk2
    have h1 : 0 < p1 := hs1 hn
    rw [← h']
    show 1 ≤ (mkCapture s n 0 pg.1 pg.2).full.length
    rw [mkCapture]
    simp only [List.drop_zero, List.length_take, Nat.sub_zero]
    rw [← hk2]
    simp only
    omega

theorem inlineRe_pos (r : RE) (n : Nat) (source : Str) (st : MDState) (cap : Capture)
    (h : inlineRe r n source st = some cap) (hn : reNullable r = false) :
    1 ≤ cap.full.length := by
  rw [inlineRe] at h
  split at h
  · exact reMatch_pos r n source cap h hn
  · exact absurd h (by simp)

theorem blockRe_pos (r : RE) (n : Nat) (source : Str) (st : MDState) (cap : Capture)
    (h : blockRe r n source st = some cap) (hn : reNullable r = false) :
    1 ≤ cap.full.length := by
  rw [blockRe] at h
  split at h
  · exact absurd h (by simp)
  · exact reMatch_pos r n source cap h hn

/-- Every default rule's `match` only produces non-empty full matches:
each of the transcribed regexes is non-nullable, and List.match returns a
LIST_R capture (of the lookbehind-prepended source). -/
theorem ruleMatch_pos (r : RuleId) (source : Str) (st : MDState) (cap : Capture)
    (h : ruleMatch r source st = some cap) : 1 ≤ cap.full.length := by
  cases r with
  | arrayRule => exact absurd h (by simp [ruleMatch])
  | heading => exact blockRe_pos _ _ _ _ _ h rfl
  | nptable => exact blockRe_pos _ _ _ _ _ h rfl
  | lheading => exact blockRe_pos _ _ _ _ _ h rfl
  | hr => exact blockRe_pos _ _ _ _ _ h rfl
  | codeBlock => exact blockRe_pos _ _ _ _ _ h rfl
  | fence => exact blockRe_pos _ _ _ _ _ h rfl
  | blockQuote => exact blockRe_pos _ _ _ _ _ h rfl
  | listRule =>
    rw [ruleMatch, listMatch] at h
    cases hl : reMatch Rx.listLookbehind 1
        (match st.prevCapture with | none => [] | some c => c.full) with
    | none => rw [hl] at h; exact absurd h (by simp)
    | some lb =>
      rw [hl] at h
      dsimp only at h
      split at h
      · exact reMatch_pos _ _ _ _ h rfl
      · exact absurd h (by simp)
  | defRule => exact blockRe_pos _ _ _ _ _ h rfl
  | table => exact blockRe_pos _ _ _ _ _ h rfl
  | newline => exact blockRe_pos _ _ _ _ _ h rfl
  | paragraph => exact blockRe_pos _ _ _ _ _ h rfl
  | escape => exact inlineRe_pos _ _ _ _ _ h rfl
  | tableSeparator =>
    rw [ruleMatch] at h
    split at h
    · exact reMatch_pos _ _ _ _ h rfl
    · exact absurd h (by simp)
  | autolink => exact inlineRe_pos _ _ _ _ _ h rfl
  | mailto => exact inlineRe_pos _ _ _ _ _ h rfl
  | url => exact inlineRe_pos _ _ _ _ _ h rfl
  | link => exact inlineRe_pos _ _ _ _ _ h rfl
  | image => exact inlineRe_pos _ _ _ _ _ h rfl
  | reflink => exact inlineRe_pos _ _ _ _ _ h rfl
  | refimage => exact inlineRe_pos _ _ _ _ _ h rfl
  | em => exact inlineRe_pos _ _ _ _ _ h rfl
  | strong => exact inlineRe_pos _ _ _ _ _ h rfl
  | u => exact inlineRe_pos _ _ _ _ _ h rfl
  | del => exact inlineRe_pos _ _ _ _ _ h rfl
  | inlineCode => exact inlineRe_pos _ _ _ _ _ h rfl
  | br => exact reMatch_pos _ _ _ _ h rfl
  | text => exact reMatch_pos _ _ _ _ h rfl

/-- A capture returned by the selection loop was produced by the selected
rule's own match (unless it was the incoming best). -/
theorem selectAux_match (source : Str) (st : MDState) :
    ∀ (l : List RuleId) (first : Bool) (best : Option (RuleId × Capture))
      (q ord : Int) (rt : RuleId) (cap : Capture),
      selectAux source st l first best q ord = some (rt, cap) →
      best = some (rt, cap) ∨ ruleMatch rt source st = some cap := by
  intro l
  induction l with
  | nil =>
    intro first best q ord rt cap h
    rw [selectAux] at h
    exact .inl h
  | cons r rest ih =>
    intro first best q ord rt cap h
    rw [selectAux] at h
    split at h
    · cases hm : ruleMatch r source st with
      | some c =>
        rw [hm] at h
        dsimp only at h
        have adopt : ∀ (q2 o2 : Int),
            selectAux source st rest false (some (r, c)) q2 o2 = some (rt, cap) →
            best = some (rt, cap) ∨ ruleMatch rt source st = some cap := by
          intro q2 o2 hh
          rcases ih _ _ _ _ _ _ hh with h1 | h2
          · injection h1 with h1'
            have hr : r = rt := congrArg Prod.fst h1'
            have hc : c = cap := congrArg Prod.snd h1'
            exact .inr (hr ▸ hc ▸ hm)
          · exact .inr h2
        split at h <;> split at h
        · exact adopt _ _ h
        · exact ih _ _ _ _ _ _ h
        · exact adopt _ _ h
        · exact ih _ _ _ _ _ _ h
      | none =>
        rw [hm] at h
        exact ih _ _ _ _ _ _ h
    · exact .inl h

theorem selectCapture_match (source : Str) (st : MDState) (rt : RuleId) (cap : Capture)
    (h : selectCapture source st = some (rt, cap)) :
    ruleMatch rt source st = some cap := by
  rcases selectAux_match source st ruleList true none (-10) 0 rt cap h with h1 | h2
  · exact absurd h1 (by simp)
  · exact h2

/-- C8: whatever the remaining source and the parse state, any capture the
default-rule selection loop returns has a non-empty full match; hence for
non-empty remaining source the loop body strictly shrinks the source
(`source = source[len(previous_capture[0]):]` drops at least one
character), which is the loop measure that makes the parse terminate. -/
theorem c8_progress (source : Str) (st : MDState) (rt : RuleId) (cap : Capture)
    (hsel : selectCapture source st = some (rt, cap)) (hne : source ≠ []) :
    1 ≤ cap.full.length ∧ (source.drop cap.full.length).length < source.length := by
  have hm := selectCapture_match source st rt cap hsel
  have hp := ruleMatch_pos rt source st cap hm
  refine ⟨hp, ?_⟩
  rw [List.length_drop]
  have hpos : 0 < source.length := List.length_pos.mpr hne
  omega

/-- The selected capture at the start of the inline source of C7. -/
def c8CapW : Capture := { full := str "**a**", groups := [some (str "a")] }

/-- C8 witness: the progress theorem at a concrete source and state. -/
theorem c8_witness :
    1 ≤ c8CapW.full.length ∧
    ((str "**a**").drop c8CapW.full.length).length < (str "**a**").length :=
  c8_progress (str "**a**") { inline := true } .strong c8CapW rfl (by decide)

/-! ### C7: emphasis precedence on the shared order -/

/-- C7: inline-parsing `"**a**"` with the default rules yields exactly one
strong node whose content is the single text node `"a"`; em's regex cannot
even match here, and strong (quality 5.1) is selected at the shared
order 21. -/
theorem c7_emphasis_precedence :
    (defaultInlineParse (str "**a**")).map Prod.fst =
      some [Node.strong [Node.text (str "a")]] := rfl

/-! ### C9: the two-item unordered list -/

/-- C9: block-parsing `"- a\n- b\n\n"` produces exactly one node — a list
with `ordered = False`, `start = None` and items
`[[text "a"], [text "b"]]`. -/
theorem c9_list_parse :
    (defaultBlockParse (str "- a\n- b\n\n")).map Prod.fst =
      some [Node.list false none [[Node.text (str "a")], [Node.text (str "b")]]] := rfl

/-! ### C3: type coverage fails on nested table separators -/

/-- C3 (code bug): block-parsing a table whose header cell holds emphasis
containing a pipe leaves a node of type `table_separator` nested inside the
strong node of the header cell — parse_table_row only strips top-level
separators.  The rule table's key is `tableSeparator`, so this type is not
coverable: `rules[ast['type']]` has no entry (the html dispatch yields
none), even though TableSeparator defines renderers for exactly these
nodes. -/
theorem c3_code_bug :
    (defaultBlockParse (str "| **a|b** |\n|---|\n\n")).map Prod.fst =
      some [Node.table
        [[Node.strong [Node.text (str "a"), Node.tableSep, Node.text (str "b")]]]
        [none] [[[]]]] ∧
    "table_separator" ∈
      nodeTypes 8 (parsedNodes (defaultBlockParse (str "| **a|b** |\n|---|\n\n"))) ∧
    "table_separator" ∉ defaultRuleKeys ∧
    htmlOut 8 Node.tableSep = none :=
  ⟨rfl, by decide, by decide, rfl⟩

/-! ### C6: reference back-patching -/

theorem storeGet_storeSet_self (l : List (Nat × Option Str × Option Str)) (i : Nat)
    (v : Option Str × Option Str) : storeGet (storeSet l i v) i = some v := by
  induction l with
  | nil => simp [storeSet, storeGet, List.find?]
  | cons q t ih =>
    rw [storeSet]
    by_cases hq : q.1 = i
    · simp [hq, storeGet, List.find?]
    · simp only [if_neg hq, storeGet, List.find?, hq, decide_eq_true_eq]
      simpa [storeGet] using ih

theorem storeGet_storeSet_ne (l : List (Nat × Option Str × Option Str)) (i j : Nat)
    (hne : j ≠ i) (v : Option Str × Option Str) :
    storeGet (storeSet l j v) i = storeGet l i := by
  induction l with
  | nil => simp [storeSet, storeGet, List.find?, hne]
  | cons q t ih =>
    rw [storeSet]
    by_cases hq : q.1 = j
    · rw [if_pos hq, storeGet, storeGet]
      simp [List.find?, hq, hne]
    · rw [if_neg hq, storeGet, storeGet]
      by_cases hqi : q.1 = i
      · simp [List.find?, hqi]
      · simp only [List.find?, hqi, decide_eq_true_eq]
        simpa [storeGet] using ih

theorem storeGet_foldl_keep (v : Option Str × Option Str) (ids : List Nat) :
    ∀ (l : List (Nat × Option Str × Option Str)) (i : Nat), storeGet l i = some v →
      storeGet (ids.foldl (fun h j => storeSet h j v) l) i = some v := by
  induction ids with
  | nil => intro l i h; exact h
  | cons j t ih =>
    intro l i h
    rw [List.foldl_cons]
    by_cases hij : j = i
    · exact ih _ _ (hij ▸ storeGet_storeSet_self l j v)
    · exact ih _ _ ((storeGet_storeSet_ne l i j hij v).trans h)

theorem storeGet_foldl_mem (v : Option Str × Option Str) (ids : List Nat) :
    ∀ (l : List (Nat × Option Str × Option Str)) (i : Nat), i ∈ ids →
      storeGet (ids.foldl (fun h j => storeSet h j v) l) i = some v := by
  induction ids with
  | nil => intro l i h; cases h
  | cons j t ih =>
    intro l i h
    rw [List.foldl_cons]
    rcases List.mem_cons.mp h with h1 | h2
    · exact storeGet_foldl_keep v t _ i (h1 ▸ storeGet_storeSet_self l j v)
    · exact ih _ _ h2

/-- C6: reference back-patching.  Whenever the parse state records a ref
node `i` under the normalized name of a definition capture (as parse_ref
does for every `[text][x]` already parsed), running Def.parse on that
capture rewrites the shared node cell to the definition's target and
title — so after the full parse the reference's `link` node carries the
definition's url.  (The end-to-end run on `"[x][y]\n\n[y]: http://z\n"`
is the witness below and `c6_end_to_end`.) -/
theorem c6_reference_backpatch (st : MDState) (cap : Capture) (i : Nat)
    (ids : List Nat) (hids : alistGet st.refs (normalizeRef (cap.grpD 1)) = some ids)
    (hmem : i ∈ ids) :
    storeGet (defParse cap st).2.store i = some (some (cap.grpD 2), cap.grp 3) := by
  have hne : st.refs.isEmpty = false := by
    cases h : st.refs with
    | nil => rw [h] at hids; exact absurd hids (by simp [alistGet])
    | cons a t => rfl
  have hnil : ids.isEmpty = false := by
    cases h : ids with
    | nil => rw [h] at hmem; cases hmem
    | cons a t => rfl
  show storeGet (defParse cap st).2.store i = _
  rw [defParse]
  simp only [hne, Bool.false_eq_true, if_neg, ite_false, hids, hnil]
  exact storeGet_foldl_mem _ ids st.store i hmem

/-- The state and capture of the witness: a ref node (heap cell 0) is
registered under name `y`, and the def capture binds `[y]: http://z`. -/
def c6StateW : MDState :=
  { refs := [(str "y", [0])], store := [(0, (none, none))], nextId := 1 }

def c6CapW : Capture :=
  { full := str "[y]: http://z\n"
    groups := [some (str "y"), some (str "http://z"), none] }

/-- C6 witness: the back-patching theorem applied at the concrete state. -/
theorem c6_witness :
    alistGet c6StateW.refs (normalizeRef (c6CapW.grpD 1)) = some [0] ∧
    storeGet (defParse c6CapW c6StateW).2.store 0 =
      some (some (str "http://z"), none) :=
  ⟨rfl, c6_reference_backpatch c6StateW c6CapW 0 [0] rfl (by decide)⟩

/-- The full pipeline on the spec's own example: the reference is parsed
first, the definition afterwards, and the final state's heap cell of the
reference's link node holds the definition's url. -/
theorem c6_end_to_end :
    (defaultBlockParse (str "[x][y]\n\n[y]: http://z\n")).map
        (fun p => (p.1, storeGet p.2.store 0)) =
      some ([Node.paragraph [Node.refLink 0 [Node.text (str "x")]],
             Node.defNode (str "y") (str "http://z") none],
            some (some (str "http://z"), none)) := rfl

/-! ### C2: the link renderer never sanitizes URLs -/

/-- C2 counterexample: a link node whose target is the javascript: URL
`javascript:alert("1")` renders with the quotes HTML-escaped (twice:
Link.html sanitizes the target and html_tag sanitizes the attribute value
again), so the rendered HTML does not contain that URL verbatim. -/
theorem c2_counterexample :
    htmlOut 2 (Node.link [] (str "javascript:alert(\"1\")") none) =
      some (str "<a href=\"javascript:alert(&amp;quot;1&amp;quot;)\"></a>") ∧
    ¬ (str "javascript:alert(\"1\")" <:+:
        str "<a href=\"javascript:alert(&amp;quot;1&amp;quot;)\"></a>") :=
  ⟨rfl, by decide⟩

theorem arrayHtml_nil (output : Node → Option Str) (fuel : Nat) :
    arrayHtml output [] fuel = some [] := by cases fuel <;> rfl

/-- C2 (amended): the default HTML renderer for link nodes puts
sanitize_text(target) into href and never applies sanitize_url, so every
link node whose target is a javascript: URL that sanitize_text leaves
unchanged (it contains none of the five escaped characters) renders with
that javascript: URL verbatim inside the href attribute. -/
theorem c2_amended (target : Str) (fuel : Nat)
    (h1 : str "javascript:" <+: target) (h2 : sanitizeText target = target) :
    htmlOut (fuel + 1) (Node.link [] target none) =
      some (htmlTag (str "a") []
        [(str "href", some (sanitizeText target)), (str "title", none)] true) ∧
    target <:+: htmlTag (str "a") []
      [(str "href", some (sanitizeText target)), (str "title", none)] true := by
  have hne : target.isEmpty = false := by
    cases target with
    | nil => obtain ⟨t, ht⟩ := h1; simp [str] at ht
    | cons c r => rfl
  constructor
  · have h0 : htmlOut (fuel + 1) (Node.link [] target none) =
        (arrayHtml (htmlOut fuel) [] fuel).map (fun inner =>
          htmlTag (str "a") inner
            [(str "href", some (sanitizeText target)), (str "title", none)] true) := rfl
    rw [h0, arrayHtml_nil]
    rfl
  · refine ⟨['<'] ++ str "a" ++ ([' '] ++ sanitizeText (str "href") ++ ['='] ++ [dq]),
      [dq] ++ ['>'] ++ (['<', '/'] ++ str "a" ++ ['>']), ?_⟩
    have hne' : target ≠ [] := by cases target <;> simp_all [List.isEmpty]
    rw [htmlTag]
    simp [hne, hne', h2, List.append_assoc]

/-- C2 witness: the amended claim at `javascript:alert(1)`, together with
the parse of the claim's example source and the rendering of the resulting
link node, which contains the URL verbatim. -/
theorem c2_witness :
    (str "javascript:" <+: str "javascript:alert(1)") ∧
    sanitizeText (str "javascript:alert(1)") = str "javascript:alert(1)" ∧
    (htmlOut 1 (Node.link [] (str "javascript:alert(1)") none) =
        some (htmlTag (str "a") []
          [(str "href", some (sanitizeText (str "javascript:alert(1)"))),
           (str "title", none)] true) ∧
      str "javascript:alert(1)" <:+: htmlTag (str "a") []
        [(str "href", some (sanitizeText (str "javascript:alert(1)"))),
         (str "title", none)] true) ∧
    (defaultInlineParse (str "[x](javascript:alert(1))")).map Prod.fst =
      some [Node.link [Node.text (str "x")] (str "javascript:alert(1)") none] ∧
    htmlOut 2 (Node.link [Node.text (str "x")] (str "javascript:alert(1)") none) =
      some (str "<a href=\"javascript:alert(1)\">x</a>") :=
  ⟨by decide, rfl, c2_amended (str "javascript:alert(1)") 0 (by decide) rfl, rfl, rfl⟩

end SimpyMd
